import Mathlib

/-!
Verification of the beam-analysis engine (`src/solver.ts`) of the
Beam-Analyzer repository.  All floating-point numbers of the source are
embedded as exact rationals (`ℚ`); JavaScript arrays become Lean lists
(or index functions for the large global matrices), in-place mutation
becomes explicit state passing, and the single `throw` becomes an
`Except` value.
-/

namespace Beam

/-- `SupportType` from `src/types.ts` (as used by `src/solver.ts`). -/
inductive SupportType where
  | FIXED | PINNED | ROLLER | HINGE
deriving DecidableEq, Repr

/-- `LoadType` from `src/types.ts` (as used by `src/solver.ts`). -/
inductive LoadType where
  | POINT | UDL | UVL | MOMENT
deriving DecidableEq, Repr

/-- `Support`: id, type, position. -/
structure Support where
  id : String
  type : SupportType
  position : ℚ
deriving DecidableEq, Repr

/-- `Load`: id, type, magnitude, position, optional end position and
end magnitude (`undefined` in JS becomes `none`). -/
structure Load where
  id : String
  type : LoadType
  magnitude : ℚ
  position : ℚ
  endPosition : Option ℚ := none
  endMagnitude : Option ℚ := none
deriving DecidableEq, Repr

/-- `BeamConfig`: length, elastic modulus, moment of inertia. -/
structure BeamConfig where
  length : ℚ
  elasticModulus : ℚ
  momentOfInertia : ℚ
deriving DecidableEq, Repr

/-- `ILDPoint`: one influence-line ordinate. -/
structure ILDPoint where
  x : ℚ
  value : ℚ
deriving DecidableEq, Repr

/-- One entry of `AnalysisResults.reactions`. -/
structure Reaction where
  position : ℚ
  force : ℚ
  moment : ℚ
  label : String
  id : String
deriving DecidableEq, Repr

/-- Shear/moment pair returned by `getInternalAt`. -/
structure InternalForces where
  shear : ℚ
  moment : ℚ
deriving DecidableEq, Repr

/-- The side from which `getInternalAt` evaluates internal forces. -/
inductive Side where
  | left | right
deriving DecidableEq, Repr

/-- `AnalysisResults` from `src/types.ts`, with the `ildReactions`
JS object embedded as an association list keyed by support id. -/
structure AnalysisResults where
  nodes : List ℚ
  shearForce : List ℚ
  bendingMoment : List ℚ
  deflection : List ℚ
  reactions : List Reaction
  maxShear : ℚ
  minShear : ℚ
  maxMoment : ℚ
  minMoment : ℚ
  maxDeflection : ℚ
  minDeflection : ℚ
  determinacy : ℤ
  isStable : Bool
  ildReactions : List (String × List ILDPoint)
  ildShearAtProbe : List ILDPoint
  ildMomentAtProbe : List ILDPoint

/-! ## Array access helpers

JS array reads out of range yield `undefined`; the source never relies on
that for values it uses, so reads are embedded with a `0` (or `[]`)
default. -/

/-- Read `l[a]` of a JS number array. -/
def getV (l : List ℚ) (a : ℕ) : ℚ := l.getD a 0

/-- Read `m[a][b]` of a JS `number[][]`. -/
def getM (m : List (List ℚ)) (a b : ℕ) : ℚ := (m.getD a []).getD b 0

/-- Write `m[a][b] = v` of a JS `number[][]`. -/
def setM (m : List (List ℚ)) (a b : ℕ) (v : ℚ) : List (List ℚ) :=
  m.set a ((m.getD a []).set b v)

/-! ## Element stiffness (`elementStiffness`, solver.ts lines 52-60) -/

/-- `elementStiffness(EI, L)`: the 4×4 local Euler–Bernoulli stiffness
matrix literal returned by the source. -/
def elementStiffness (EI L : ℚ) : List (List ℚ) :=
  let L2 := L * L
  let L3 := L2 * L
  [[12 * EI / L3, 6 * EI / L2, -12 * EI / L3, 6 * EI / L2],
   [6 * EI / L2, 4 * EI / L, -6 * EI / L2, 2 * EI / L],
   [-12 * EI / L3, -6 * EI / L2, 12 * EI / L3, -6 * EI / L2],
   [6 * EI / L2, 2 * EI / L, -6 * EI / L2, 4 * EI / L]]

/-- The coefficient matrix named by the specification: the claim states
`elementStiffness EI Le = EI/Le^3 • [[12, 6Le, -12, 6Le], …]`.  This
definition follows the words of the spec, to be compared with
`elementStiffness`. -/
def stiffnessCoeff (L : ℚ) : List (List ℚ) :=
  [[12, 6 * L, -12, 6 * L],
   [6 * L, 4 * L ^ 2, -6 * L, 2 * L ^ 2],
   [-12, -6 * L, 12, -6 * L],
   [6 * L, 2 * L ^ 2, -6 * L, 4 * L ^ 2]]

/-! ## Moment release (`applyMomentRelease`, solver.ts lines 62-79)

The JS function mutates `ke` and `fe` in place; the embedding replays each
assignment in program order, reading the current (possibly already
updated) values exactly as the JS interpreter does. -/

/-- One iteration of the `for (const r of releases)` loop of
`applyMomentRelease`: `krr` and `fr` are read once, then the `i`/`j`
loops update `fe` and `ke` in place, each right-hand side reading the
current values. -/
def releaseDof (st : List (List ℚ) × List ℚ) (r : ℕ) : List (List ℚ) × List ℚ :=
  let krr := getM st.1 r r
  if |krr| < 1 / 10 ^ 12 then st
  else
    let fr := getV st.2 r
    (List.range 4).foldl
      (fun st2 i =>
        let fe2 := st2.2.set i (getV st2.2 i - getM st2.1 i r / krr * fr)
        let ke2 := (List.range 4).foldl
          (fun m j => setM m i j (getM m i j - getM m i r * getM m r j / krr)) st2.1
        (ke2, fe2)) st

/-- `applyMomentRelease(ke, fe, releaseStart, releaseEnd)`: releases local
DOF 1 (start rotation) and then DOF 3 (end rotation), returning the final
`(ke, fe)` state. -/
def applyMomentRelease (ke : List (List ℚ)) (fe : List ℚ)
    (releaseStart releaseEnd : Bool) : List (List ℚ) × List ℚ :=
  let releases := (if releaseStart then [1] else []) ++ (if releaseEnd then [3] else [])
  releases.foldl releaseDof (ke, fe)

/-- One release step as the specification words it: every value on the
right-hand side of `f_i -= (k_ir/k_rr)·f_r` and `k_ij -= k_ir·k_rj/k_rr` is
the value `ke`/`fe` held at the start of the step.  This definition follows
the words of the spec, to be compared with `releaseDof`. -/
def releaseDofSpec (st : List (List ℚ) × List ℚ) (r : ℕ) : List (List ℚ) × List ℚ :=
  let krr := getM st.1 r r
  if |krr| < 1 / 10 ^ 12 then st
  else
    ((List.range 4).map (fun i => (List.range 4).map
        (fun j => getM st.1 i j - getM st.1 i r * getM st.1 r j / krr)),
     (List.range 4).map (fun i => getV st.2 i - getM st.1 i r / krr * getV st.2 r))

/-- The whole moment release as the specification words it (snapshot
semantics per released DOF, start before end). -/
def applyMomentReleaseSpec (ke : List (List ℚ)) (fe : List ℚ)
    (releaseStart releaseEnd : Bool) : List (List ℚ) × List ℚ :=
  let releases := (if releaseStart then [1] else []) ++ (if releaseEnd then [3] else [])
  releases.foldl releaseDofSpec (ke, fe)

/-! ## Dense LU solver (`LUSolver`, solver.ts lines 4-50)

The factorization buffer and the permutation vector are embedded as index
functions (`ℕ → ℕ → ℚ`, `ℕ → ℕ`); every loop of the source becomes a fold
over the same index range. -/

/-- Pointwise update of a matrix-as-function at entry `(a, b)`. -/
def updM (m : ℕ → ℕ → ℚ) (a b : ℕ) (v : ℚ) : ℕ → ℕ → ℚ :=
  fun i j => if i = a ∧ j = b then v else m i j

/-- Pointwise update of a vector-as-function at index `a`. -/
def updV (f : ℕ → ℚ) (a : ℕ) (v : ℚ) : ℕ → ℚ :=
  fun i => if i = a then v else f i

/-- Partial-pivot search of the constructor: starting from `max = 0`,
`row = i`, scan `k = i, …, n-1` and record any strictly larger `|LU k i|`
together with its row. -/
def pivotSearch (LU : ℕ → ℕ → ℚ) (i n : ℕ) : ℚ × ℕ :=
  (List.range' i (n - i)).foldl
    (fun mr k => if |LU k i| > mr.1 then (|LU k i|, k) else mr) (0, i)

/-- Row swap `[this.LU[i], this.LU[row]] = [this.LU[row], this.LU[i]]`. -/
def swapRows (LU : ℕ → ℕ → ℚ) (a b : ℕ) : ℕ → ℕ → ℚ :=
  fun r c => if r = a then LU b c else if r = b then LU a c else LU r c

/-- Entry swap `[pivot[i], pivot[row]] = [pivot[row], pivot[i]]`. -/
def swapV (p : ℕ → ℕ) (a b : ℕ) : ℕ → ℕ :=
  fun t => if t = a then p b else if t = b then p a else p t

/-- Elimination below pivot `i`: for each row `i < j < n`, store the
multiplier `LU j i / LU i i` in column `i` and update columns `i < k < n`.
The row updates of the source loop are independent, so they are expressed
as one pure function. -/
def elimStep (LU : ℕ → ℕ → ℚ) (i n : ℕ) : ℕ → ℕ → ℚ :=
  fun j k =>
    if i < j ∧ j < n then
      if k = i then LU j i / LU i i
      else if i < k ∧ k < n then LU j k - LU j i / LU i i * LU i k
      else LU j k
    else LU j k

/-- The mutable state of `LUSolver`: the factorization buffer and the
permutation vector. -/
structure LUState where
  LU : ℕ → ℕ → ℚ
  piv : ℕ → ℕ

/-- One iteration of the constructor's outer loop: pivot search, the
`max < 1e-18` skip guard, row/pivot swap, elimination. -/
def luStep (n : ℕ) (s : LUState) (i : ℕ) : LUState :=
  let mr := pivotSearch s.LU i n
  if mr.1 < 1 / 10 ^ 18 then s
  else
    { LU := elimStep (swapRows s.LU i mr.2) i n
      piv := swapV s.piv i mr.2 }

/-- The `LUSolver` state after the first `m` iterations of the
constructor's outer loop on an `n × n` matrix `K`. -/
def luStates (K : ℕ → ℕ → ℚ) (n m : ℕ) : LUState :=
  (List.range m).foldl (luStep n) { LU := K, piv := fun t => t }

/-- The finished `LUSolver` constructor. -/
def luFactor (K : ℕ → ℕ → ℚ) (n : ℕ) : LUState :=
  luStates K n n

/-- Forward substitution of `solve`:
`y[i] = b[pivot[i]] - Σ_{j<i} LU[i][j]·y[j]`, on a zero-filled buffer. -/
def forwardSub (s : LUState) (n : ℕ) (b : ℕ → ℚ) : ℕ → ℚ :=
  (List.range n).foldl
    (fun y i => updV y i (b (s.piv i) - ∑ j ∈ Finset.range i, s.LU i j * y j))
    (fun _ => 0)

/-- Backward substitution of `solve`, processed for `i = n-1` down to `0`:
a diagonal entry with `|LU[i][i]| < 1e-22` forces `x[i] = 0`. -/
def backSub (s : LUState) (n : ℕ) (y : ℕ → ℚ) : ℕ → ℚ :=
  (List.range n).foldr
    (fun i x => updV x i
      (if |s.LU i i| < 1 / 10 ^ 22 then 0
       else (y i - ∑ j ∈ Finset.Ico (i + 1) n, s.LU i j * x j) / s.LU i i))
    (fun _ => 0)

/-- `solve(b)` as an index function. -/
def solveFun (K : ℕ → ℕ → ℚ) (n : ℕ) (b : ℕ → ℚ) : ℕ → ℚ :=
  backSub (luFactor K n) n (forwardSub (luFactor K n) n b)

/-- `solve(b)` as the length-`n` array the source returns. -/
def solveList (K : ℕ → ℕ → ℚ) (n : ℕ) (b : ℕ → ℚ) : List ℚ :=
  (List.range n).map (solveFun K n b)

end Beam

set_option maxHeartbeats 1000000 in
/-- **C4.** For every `EI` and every element length `Le ≠ 0`,
`elementStiffness EI Le` equals the matrix `EI/Le^3 * [[12, 6Le, -12, 6Le],
[6Le, 4Le^2, -6Le, 2Le^2], [-12, -6Le, 12, -6Le], [6Le, 2Le^2, -6Le, 4Le^2]]`
entry by entry in the DOF order `[v1, θ1, v2, θ2]`, and the returned matrix
is symmetric. -/
theorem C4_elementStiffness (EI Le : ℚ) (hL : Le ≠ 0) :
    (∀ i j, i < 4 → j < 4 →
      Beam.getM (Beam.elementStiffness EI Le) i j
        = EI / Le ^ 3 * Beam.getM (Beam.stiffnessCoeff Le) i j) ∧
    (∀ i j, Beam.getM (Beam.elementStiffness EI Le) i j
        = Beam.getM (Beam.elementStiffness EI Le) j i) := by
  have key : ∀ i j, i < 4 → j < 4 →
      Beam.getM (Beam.elementStiffness EI Le) i j
        = EI / Le ^ 3 * Beam.getM (Beam.stiffnessCoeff Le) i j := by
    intro i j hi hj
    interval_cases i <;> interval_cases j <;>
      simp only [Beam.elementStiffness, Beam.stiffnessCoeff, Beam.getM,
        List.getD_cons_zero, List.getD_cons_succ] <;>
      (field_simp; ring)
  refine ⟨key, ?_⟩
  intro i j
  by_cases hi : i < 4
  · by_cases hj : j < 4
    · rw [key i j hi hj, key j i hj hi]
      interval_cases i <;> interval_cases j <;>
        simp only [Beam.stiffnessCoeff, Beam.getM,
          List.getD_cons_zero, List.getD_cons_succ]
    · have h4 : ∃ t, j = t + 4 := ⟨j - 4, by omega⟩
      obtain ⟨t, rfl⟩ := h4
      interval_cases i <;>
        simp [Beam.elementStiffness, Beam.getM, List.getD_eq_getElem?_getD]
  · have h4 : ∃ t, i = t + 4 := ⟨i - 4, by omega⟩
    obtain ⟨t, rfl⟩ := h4
    by_cases hj : j < 4
    · interval_cases j <;>
        simp [Beam.elementStiffness, Beam.getM, List.getD_eq_getElem?_getD]
    · have h4j : ∃ u, j = u + 4 := ⟨j - 4, by omega⟩
      obtain ⟨u, rfl⟩ := h4j
      simp [Beam.elementStiffness, Beam.getM, List.getD_eq_getElem?_getD]

/-- Witness for C4 at `EI = 2`, `Le = 1`. -/
theorem C4_elementStiffness_witness :
    (1 : ℚ) ≠ 0 ∧
    ((∀ i j, i < 4 → j < 4 →
      Beam.getM (Beam.elementStiffness 2 1) i j
        = 2 / 1 ^ 3 * Beam.getM (Beam.stiffnessCoeff 1) i j) ∧
    (∀ i j, Beam.getM (Beam.elementStiffness 2 1) i j
        = Beam.getM (Beam.elementStiffness 2 1) j i)) :=
  ⟨by norm_num, C4_elementStiffness 2 1 (by norm_num)⟩

set_option maxHeartbeats 4000000 in
/-- **C3.** Evaluation of `applyMomentRelease` at the concrete failing input
`ke = elementStiffness 1 1`, `fe = [0,0,0,0]`, `releaseStart = true`,
`releaseEnd = false`: the in-place updates of the source read entries of
`ke` that earlier iterations of the same release step have already
overwritten, so the result differs from the static condensation the claim
(and the spec) state, which reads every right-hand side value from the
state held at the start of the release step.  In particular entry `(0,2)`
stays `-12` where the condensation formula yields `-3`, and row 1 of the
released DOF keeps the nonzero couplings `-6, 2`. -/
theorem C3_momentRelease_aliasing :
    (Beam.applyMomentRelease (Beam.elementStiffness 1 1) [0, 0, 0, 0] true false).1 =
      [[3, 0, -12, 6], [0, 0, -6, 2], [-12, -6, 3, -3], [6, 2, -3, 3]] ∧
    (Beam.applyMomentReleaseSpec (Beam.elementStiffness 1 1) [0, 0, 0, 0] true false).1 =
      [[3, 0, -3, 3], [0, 0, 0, 0], [-3, 0, 3, -3], [3, 0, -3, 3]] ∧
    Beam.getM (Beam.applyMomentRelease (Beam.elementStiffness 1 1) [0, 0, 0, 0] true false).1 0 2
      ≠ Beam.getM
          (Beam.applyMomentReleaseSpec (Beam.elementStiffness 1 1) [0, 0, 0, 0] true false).1 0 2 := by
  have hcode : (Beam.applyMomentRelease (Beam.elementStiffness 1 1) [0, 0, 0, 0] true false).1 =
      [[3, 0, -12, 6], [0, 0, -6, 2], [-12, -6, 3, -3], [6, 2, -3, 3]] := by
    norm_num [Beam.applyMomentRelease, Beam.releaseDof, Beam.getM, Beam.getV, Beam.setM,
      Beam.elementStiffness, List.range_succ]
  have hspec : (Beam.applyMomentReleaseSpec (Beam.elementStiffness 1 1) [0, 0, 0, 0] true false).1 =
      [[3, 0, -3, 3], [0, 0, 0, 0], [-3, 0, 3, -3], [3, 0, -3, 3]] := by
    norm_num [Beam.applyMomentReleaseSpec, Beam.releaseDofSpec, Beam.getM, Beam.getV,
      Beam.elementStiffness, List.range_succ]
  refine ⟨hcode, hspec, ?_⟩
  rw [hcode, hspec]
  norm_num [Beam.getM]

namespace Beam

/-! ## LU factorization invariant

`Lpart A m` is the unit lower-triangular factor read off the buffer `A`
when columns `< m` hold multipliers; `Apart A m` is the still-active part
of the buffer (rows `< m` finalized as upper rows, rows `≥ m` active from
column `m` on).  The constructor maintains `Lpart · m * Apart · m = P K`
row by row. -/

/-- Unit lower factor read off the buffer at factorization boundary `m`. -/
def Lpart (A : ℕ → ℕ → ℚ) (m : ℕ) : ℕ → ℕ → ℚ :=
  fun r k => if k = r then 1 else if k < min m r then A r k else 0

/-- Active/upper part of the buffer at factorization boundary `m`. -/
def Apart (A : ℕ → ℕ → ℚ) (m : ℕ) : ℕ → ℕ → ℚ :=
  fun r c => if c < min m r then 0 else A r c

/-- The invariant preserved by the constructor loop: the permutation is a
bijection fixing indices `≥ n`, and `Lpart · m * Apart · m` reproduces the
permuted input matrix. -/
def LUInv (K : ℕ → ℕ → ℚ) (n m : ℕ) (s : LUState) : Prop :=
  Function.Bijective s.piv ∧ (∀ t, n ≤ t → s.piv t = t) ∧
  ∀ r c, r < n → c < n →
    (∑ k ∈ Finset.range n, Lpart s.LU m r k * Apart s.LU m k c) = K (s.piv r) c

theorem Lpart_sum (A : ℕ → ℕ → ℚ) (m r n : ℕ) (hr : r < n) (f : ℕ → ℚ) :
    ∑ k ∈ Finset.range n, Lpart A m r k * f k
      = f r + ∑ k ∈ Finset.range (min m r), A r k * f k := by
  have hmem : r ∈ Finset.range n := Finset.mem_range.mpr hr
  rw [← Finset.add_sum_erase _ _ hmem]
  have h1 : Lpart A m r r * f r = f r := by simp [Lpart]
  rw [h1]
  congr 1
  have h2 : ∀ k ∈ (Finset.range n).erase r,
      Lpart A m r k * f k = if k < min m r then A r k * f k else 0 := by
    intro k hk
    have hkr : k ≠ r := Finset.ne_of_mem_erase hk
    simp only [Lpart, if_neg hkr]
    split_ifs <;> simp
  rw [Finset.sum_congr rfl h2, Finset.sum_ite, Finset.sum_const_zero, add_zero]
  apply Finset.sum_congr
  · ext k
    simp only [Finset.mem_filter, Finset.mem_erase, Finset.mem_range]
    constructor
    · rintro ⟨⟨hkr, hkn⟩, hkm⟩
      exact hkm
    · intro hkm
      have hkr : k < r := lt_of_lt_of_le hkm (min_le_right m r)
      exact ⟨⟨Nat.ne_of_lt hkr, lt_trans hkr hr⟩, hkm⟩
  · intro k _
    rfl

theorem pivotSearch_aux (LU : ℕ → ℕ → ℚ) (i : ℕ) (l : List ℕ) (mr : ℚ × ℕ)
    (inv : (mr.1 = 0 ∧ mr.2 = i) ∨ mr.1 = |LU mr.2 i|)
    (hmem : mr.2 = i ∨ mr.2 ∈ l → True) :
    ((l.foldl (fun mr k => if |LU k i| > mr.1 then (|LU k i|, k) else mr) mr).1 = 0 ∧
      (l.foldl (fun mr k => if |LU k i| > mr.1 then (|LU k i|, k) else mr) mr).2 = i) ∨
    (l.foldl (fun mr k => if |LU k i| > mr.1 then (|LU k i|, k) else mr) mr).1 =
      |LU (l.foldl (fun mr k => if |LU k i| > mr.1 then (|LU k i|, k) else mr) mr).2 i| := by
  induction l generalizing mr with
  | nil => exact inv
  | cons a t ih =>
    simp only [List.foldl_cons]
    by_cases h : |LU a i| > mr.1
    · rw [if_pos h]
      exact ih (|LU a i|, a) (Or.inr rfl) (fun _ => trivial)
    · rw [if_neg h]
      exact ih mr inv (fun _ => trivial)

theorem pivotSearch_row_aux (LU : ℕ → ℕ → ℚ) (i n : ℕ) (l : List ℕ) (mr : ℚ × ℕ)
    (hl : ∀ k ∈ l, i ≤ k ∧ k < n) (hmr : i ≤ mr.2 ∧ mr.2 < n) :
    i ≤ (l.foldl (fun mr k => if |LU k i| > mr.1 then (|LU k i|, k) else mr) mr).2 ∧
    (l.foldl (fun mr k => if |LU k i| > mr.1 then (|LU k i|, k) else mr) mr).2 < n := by
  induction l generalizing mr with
  | nil => exact hmr
  | cons a t ih =>
    simp only [List.foldl_cons]
    have ha := hl a (List.mem_cons_self a t)
    by_cases h : |LU a i| > mr.1
    · rw [if_pos h]
      exact ih ((|LU a i|), a) (fun k hk => hl k (List.mem_cons_of_mem a hk)) ha
    · rw [if_neg h]
      exact ih mr (fun k hk => hl k (List.mem_cons_of_mem a hk)) hmr

theorem pivotSearch_val (LU : ℕ → ℕ → ℚ) (i n : ℕ) :
    ((pivotSearch LU i n).1 = 0 ∧ (pivotSearch LU i n).2 = i) ∨
    (pivotSearch LU i n).1 = |LU (pivotSearch LU i n).2 i| :=
  pivotSearch_aux LU i _ (0, i) (Or.inl ⟨rfl, rfl⟩) (fun _ => trivial)

theorem pivotSearch_row (LU : ℕ → ℕ → ℚ) (i n : ℕ) (h : i < n) :
    i ≤ (pivotSearch LU i n).2 ∧ (pivotSearch LU i n).2 < n := by
  apply pivotSearch_row_aux LU i n _ (0, i) _ ⟨le_refl i, h⟩
  intro k hk
  rw [List.mem_range'] at hk
  obtain ⟨t, ht, hkt⟩ := hk
  omega

end Beam

namespace Beam

theorem LUInv_init (K : ℕ → ℕ → ℚ) (n : ℕ) :
    LUInv K n 0 { LU := K, piv := fun t => t } := by
  refine ⟨Function.bijective_id, fun t _ => rfl, ?_⟩
  intro r c hr hc
  rw [Lpart_sum K 0 r n hr]
  simp [Apart]

theorem swapV_eq_comp (p : ℕ → ℕ) (a b : ℕ) :
    swapV p a b = p ∘ (Equiv.swap a b) := by
  funext t
  simp only [swapV, Function.comp_apply, Equiv.swap_apply_def]
  split_ifs <;> simp_all

theorem swapV_bijective (p : ℕ → ℕ) (a b : ℕ) (hp : Function.Bijective p) :
    Function.Bijective (swapV p a b) := by
  rw [swapV_eq_comp]
  exact hp.comp (Equiv.swap a b).bijective

theorem LUInv_swap (K : ℕ → ℕ → ℚ) (n m row : ℕ) (s : LUState)
    (hm : m < n) (hrow : m ≤ row) (hrown : row < n)
    (h : LUInv K n m s) :
    LUInv K n m { LU := swapRows s.LU m row, piv := swapV s.piv m row } := by
  obtain ⟨hbij, hfix, hsum⟩ := h
  refine ⟨swapV_bijective _ _ _ hbij, ?_, ?_⟩
  · intro t ht
    have htm : t ≠ m := by omega
    have htr : t ≠ row := by omega
    simp only [swapV, if_neg htm, if_neg htr]
    exact hfix t ht
  · intro r c hr hc
    dsimp only
    by_cases hrm : r = m
    · subst hrm
      rw [Lpart_sum _ r r n hr]
      have hq : swapV s.piv r row r = s.piv row := by simp [swapV]
      rw [hq, ← hsum row c hrown hc, Lpart_sum s.LU r row n hrown]
      have e1 : Apart (swapRows s.LU r row) r r c = Apart s.LU r row c := by
        simp [Apart, swapRows, min_eq_left hrow]
      rw [e1]
      congr 1
      apply Finset.sum_congr
      · rw [Nat.min_self, min_eq_left hrow]
      · intro k hk
        rw [Finset.mem_range, min_eq_left hrow] at hk
        have hkm : k ≠ r := by omega
        have hkrow : k ≠ row := by omega
        have e2 : swapRows s.LU r row r k = s.LU row k := by simp [swapRows]
        have e3 : Apart (swapRows s.LU r row) r k c = Apart s.LU r k c := by
          simp [Apart, swapRows, hkm, hkrow]
        rw [e2, e3]
    · by_cases hrr : r = row
      · subst hrr
        rw [Lpart_sum _ m r n hr]
        have hq : swapV s.piv m r r = s.piv m := by simp [swapV, hrm]
        rw [hq, ← hsum m c hm hc, Lpart_sum s.LU m m n hm]
        have hmr2 : min m r = m := min_eq_left hrow
        have e1 : Apart (swapRows s.LU m r) m r c = Apart s.LU m m c := by
          simp [Apart, swapRows, hrm, hmr2]
        rw [e1]
        congr 1
        apply Finset.sum_congr
        · rw [Nat.min_self, hmr2]
        · intro k hk
          rw [Finset.mem_range, Nat.min_self] at hk
          have hkm : k ≠ m := by omega
          have hkr : k ≠ r := by
            have : m ≤ r := hrow
            omega
          have e2 : swapRows s.LU m r r k = s.LU m k := by
            simp [swapRows, hrm]
          have e3 : Apart (swapRows s.LU m r) m k c = Apart s.LU m k c := by
            simp [Apart, swapRows, hkm, hkr]
          rw [e2, e3]
      · rw [Lpart_sum _ m r n hr]
        have hq : swapV s.piv m row r = s.piv r := by
          simp [swapV, hrm, hrr]
        rw [hq, ← hsum r c hr hc, Lpart_sum s.LU m r n hr]
        have e1 : Apart (swapRows s.LU m row) m r c = Apart s.LU m r c := by
          simp [Apart, swapRows, hrm, hrr]
        rw [e1]
        congr 1
        apply Finset.sum_congr rfl
        intro k hk
        rw [Finset.mem_range] at hk
        have hkm2 : k < m := lt_of_lt_of_le hk (min_le_left m r)
        have hkm : k ≠ m := by omega
        have hkrow : k ≠ row := by omega
        have e2 : swapRows s.LU m row r k = s.LU r k := by
          simp [swapRows, hrm, hrr]
        have e3 : Apart (swapRows s.LU m row) m k c = Apart s.LU m k c := by
          simp [Apart, swapRows, hkm, hkrow]
        rw [e2, e3]

end Beam

namespace Beam

theorem LUInv_elim (K : ℕ → ℕ → ℚ) (n m : ℕ) (s : LUState)
    (hm : m < n) (hmm : s.LU m m ≠ 0)
    (h : LUInv K n m s) :
    LUInv K n (m + 1) { LU := elimStep s.LU m n, piv := s.piv } := by
  obtain ⟨hbij, hfix, hsum⟩ := h
  refine ⟨hbij, hfix, ?_⟩
  intro r c hr hc
  dsimp only
  by_cases hrm : r ≤ m
  · -- rows `≤ m` are finished and untouched
    have hminr : min (m + 1) r = min m r := by omega
    rw [Lpart_sum _ (m + 1) r n hr, ← hsum r c hr hc, Lpart_sum s.LU m r n hr]
    have e1 : Apart (elimStep s.LU m n) (m + 1) r c = Apart s.LU m r c := by
      have hrow : ¬(m < r ∧ r < n) := by omega
      simp only [Apart, elimStep, if_neg hrow, hminr]
    rw [e1, hminr]
    congr 1
    apply Finset.sum_congr rfl
    intro k hk
    rw [Finset.mem_range] at hk
    have hkr : k < r := lt_of_lt_of_le hk (min_le_right m r)
    have hkm : k < m := lt_of_lt_of_le hk (min_le_left m r)
    have e2 : elimStep s.LU m n r k = s.LU r k := by
      have hrow : ¬(m < r ∧ r < n) := by omega
      simp only [elimStep, if_neg hrow]
    have e3 : Apart (elimStep s.LU m n) (m + 1) k c = Apart s.LU m k c := by
      have hrow : ¬(m < k ∧ k < n) := by omega
      have hmink : min (m + 1) k = min m k := by omega
      simp only [Apart, elimStep, if_neg hrow, hmink]
    rw [e2, e3]
  · -- active rows `r > m`
    push_neg at hrm
    have hminr : min (m + 1) r = m + 1 := by omega
    have hrn : m < r ∧ r < n := ⟨hrm, hr⟩
    rw [Lpart_sum _ (m + 1) r n hr, ← hsum r c hr hc, Lpart_sum s.LU m r n hr]
    have hminr0 : min m r = m := by omega
    rw [hminr, hminr0, Finset.sum_range_succ]
    -- identify the three pieces
    have e2 : ∀ k, k < m → elimStep s.LU m n r k = s.LU r k := by
      intro k hk
      have h1 : ¬(k = m) := by omega
      have h2 : ¬(m < k ∧ k < n) := by omega
      simp only [elimStep, if_pos hrn, if_neg h1, if_neg h2]
    have e3 : ∀ k, k < m → Apart (elimStep s.LU m n) (m + 1) k c = Apart s.LU m k c := by
      intro k hk
      have hrow : ¬(m < k ∧ k < n) := by omega
      have hmink : min (m + 1) k = min m k := by omega
      simp only [Apart, elimStep, if_neg hrow, hmink]
    have e4 : elimStep s.LU m n r m = s.LU r m / s.LU m m := by
      simp [elimStep, hrn]
    have e5 : Apart (elimStep s.LU m n) (m + 1) m c = Apart s.LU m m c := by
      have hrow : ¬(m < m ∧ m < n) := by omega
      have hmink : min (m + 1) m = m := by omega
      simp only [Apart, elimStep, if_neg hrow, hmink, Nat.min_self]
    rw [e4, e5]
    have hsplit : ∑ k ∈ Finset.range m, elimStep s.LU m n r k *
        Apart (elimStep s.LU m n) (m + 1) k c
        = ∑ k ∈ Finset.range m, s.LU r k * Apart s.LU m k c := by
      apply Finset.sum_congr rfl
      intro k hk
      rw [Finset.mem_range] at hk
      rw [e2 k hk, e3 k hk]
    rw [hsplit]
    have key : Apart (elimStep s.LU m n) (m + 1) r c
        + s.LU r m / s.LU m m * Apart s.LU m m c = Apart s.LU m r c := by
      rcases lt_trichotomy c m with hcm | hcm | hcm
      · have a1 : Apart (elimStep s.LU m n) (m + 1) r c = 0 := by
          have : c < min (m + 1) r := by omega
          simp only [Apart, if_pos this]
        have a2 : Apart s.LU m m c = 0 := by
          have : c < min m m := by omega
          simp only [Apart, if_pos this]
        have a3 : Apart s.LU m r c = 0 := by
          have : c < min m r := by omega
          simp only [Apart, if_pos this]
        rw [a1, a2, a3, mul_zero, add_zero]
      · subst hcm
        have a1 : Apart (elimStep s.LU c n) (c + 1) r c = 0 := by
          have : c < min (c + 1) r := by omega
          simp only [Apart, if_pos this]
        have a2 : Apart s.LU c c c = s.LU c c := by
          have : ¬(c < min c c) := by omega
          simp only [Apart, if_neg this]
        have a3 : Apart s.LU c r c = s.LU r c := by
          have : ¬(c < min c r) := by omega
          simp only [Apart, if_neg this]
        rw [a1, a2, a3, zero_add, div_mul_cancel₀ _ hmm]
      · have a1 : Apart (elimStep s.LU m n) (m + 1) r c
            = s.LU r c - s.LU r m / s.LU m m * s.LU m c := by
          have h1 : ¬(c < min (m + 1) r) := by omega
          have h2 : ¬(c = m) := by omega
          have h3 : m < c ∧ c < n := ⟨hcm, hc⟩
          simp only [Apart, if_neg h1, elimStep, if_pos hrn, if_neg h2, if_pos h3]
        have a2 : Apart s.LU m m c = s.LU m c := by
          have : ¬(c < min m m) := by omega
          simp only [Apart, if_neg this]
        have a3 : Apart s.LU m r c = s.LU r c := by
          have : ¬(c < min m r) := by omega
          simp only [Apart, if_neg this]
        rw [a1, a2, a3]
        ring
    linarith [key]

end Beam

namespace Beam

/-- The pivot magnitude selected at step `i` of the factorization of the
`n × n` matrix `K` (the `max` of the source's pivot search at that step). -/
def luPivotMax (K : ℕ → ℕ → ℚ) (n i : ℕ) : ℚ :=
  (pivotSearch (luStates K n i).LU i n).1

theorem luStates_succ (K : ℕ → ℕ → ℚ) (n m : ℕ) :
    luStates K n (m + 1) = luStep n (luStates K n m) m := by
  unfold luStates
  rw [List.range_succ, List.foldl_append, List.foldl_cons, List.foldl_nil]

theorem LUInv_step (K : ℕ → ℕ → ℚ) (n m : ℕ) (hm : m < n)
    (h : LUInv K n m (luStates K n m))
    (hp : 1 / 10 ^ 18 ≤ luPivotMax K n m) :
    LUInv K n (m + 1) (luStates K n (m + 1)) := by
  rw [luStates_succ]
  set s := luStates K n m with hs
  have hp2 : 1 / 10 ^ 18 ≤ (pivotSearch s.LU m n).1 := hp
  have hnlt : ¬((pivotSearch s.LU m n).1 < 1 / 10 ^ 18) := by
    rw [not_lt]
    exact hp2
  unfold luStep
  rw [if_neg hnlt]
  set row := (pivotSearch s.LU m n).2 with hrowdef
  obtain ⟨hrow1, hrow2⟩ := pivotSearch_row s.LU m n hm
  have hswap := LUInv_swap K n m row s hm hrow1 hrow2 h
  have hmm : swapRows s.LU m row m m ≠ 0 := by
    have hval := pivotSearch_val s.LU m n
    rcases hval with ⟨hz, _⟩ | habs
    · exfalso
      rw [hz] at hp2
      norm_num at hp2
    · have habs2 : (1 : ℚ) / 10 ^ 18 ≤ |s.LU row m| := by
        rw [← habs]
        exact hp
      have hpos : (0 : ℚ) < |s.LU row m| := by
        apply lt_of_lt_of_le _ habs2
        norm_num
      have hne : s.LU row m ≠ 0 := by
        intro hzero
        rw [hzero] at hpos
        simp at hpos
      simpa [swapRows] using hne
  exact LUInv_elim K n m
    { LU := swapRows s.LU m row, piv := swapV s.piv m row } hm hmm hswap

theorem LUInv_all (K : ℕ → ℕ → ℚ) (n : ℕ)
    (hp : ∀ i, i < n → 1 / 10 ^ 18 ≤ luPivotMax K n i) :
    ∀ m, m ≤ n → LUInv K n m (luStates K n m) := by
  intro m
  induction m with
  | zero =>
    intro _
    exact LUInv_init K n
  | succ t ih =>
    intro hle
    have htn : t < n := by omega
    exact LUInv_step K n t htn (ih (le_of_lt htn)) (hp t htn)

end Beam

namespace Beam

theorem foldl_updV_stable (body : ℕ → (ℕ → ℚ) → ℚ)
    (hb : ∀ a x y, (∀ j, j < a → x j = y j) → body a x = body a y) :
    ∀ (l : List ℕ) (init : ℕ → ℚ), List.Pairwise (· < ·) l →
      (∀ i ∈ l, (l.foldl (fun x a => updV x a (body a x)) init) i
          = body i (l.foldl (fun x a => updV x a (body a x)) init)) ∧
      (∀ i, i ∉ l → (l.foldl (fun x a => updV x a (body a x)) init) i = init i) := by
  intro l
  induction l with
  | nil => exact fun init _ => ⟨fun i hi => absurd hi (List.not_mem_nil i), fun i _ => rfl⟩
  | cons a t ih =>
    intro init hpw
    rw [List.pairwise_cons] at hpw
    obtain ⟨hat, htp⟩ := hpw
    obtain ⟨ih1, ih2⟩ := ih (updV init a (body a init)) htp
    have hanot : a ∉ t := fun hmem => lt_irrefl a (hat a hmem)
    constructor
    · intro i hi
      rw [List.foldl_cons]
      rcases List.mem_cons.mp hi with rfl | hit
      · have hres : (t.foldl (fun x a => updV x a (body a x))
            (updV init i (body i init))) i = body i init := by
          rw [ih2 i hanot]
          simp [updV]
        rw [hres]
        apply hb
        intro j hj
        have hjt : j ∉ t := fun hmem => absurd (hat j hmem) (by omega)
        rw [ih2 j hjt]
        simp only [updV]
        rw [if_neg (by omega)]
      · rw [ih1 i hit]
    · intro i hi
      rw [List.mem_cons, not_or] at hi
      obtain ⟨hia, hit⟩ := hi
      rw [List.foldl_cons, ih2 i hit]
      simp only [updV]
      rw [if_neg hia]

theorem foldr_updV_stable (body : ℕ → (ℕ → ℚ) → ℚ)
    (hb : ∀ a x y, (∀ j, a < j → x j = y j) → body a x = body a y) :
    ∀ (l : List ℕ) (init : ℕ → ℚ), List.Pairwise (· < ·) l →
      (∀ i ∈ l, (l.foldr (fun a x => updV x a (body a x)) init) i
          = body i (l.foldr (fun a x => updV x a (body a x)) init)) ∧
      (∀ i, i ∉ l → (l.foldr (fun a x => updV x a (body a x)) init) i = init i) := by
  intro l
  induction l with
  | nil => exact fun init _ => ⟨fun i hi => absurd hi (List.not_mem_nil i), fun i _ => rfl⟩
  | cons a t ih =>
    intro init hpw
    rw [List.pairwise_cons] at hpw
    obtain ⟨hat, htp⟩ := hpw
    obtain ⟨ih1, ih2⟩ := ih init htp
    have hanot : a ∉ t := fun hmem => lt_irrefl a (hat a hmem)
    have hoff : ∀ j, j ≠ a →
        ((a :: t).foldr (fun a x => updV x a (body a x)) init) j
          = (t.foldr (fun a x => updV x a (body a x)) init) j := by
      intro j hj
      rw [List.foldr_cons]
      simp only [updV]
      rw [if_neg hj]
    constructor
    · intro i hi
      rcases List.mem_cons.mp hi with rfl | hit
      · have hval : ((i :: t).foldr (fun a x => updV x a (body a x)) init) i
            = body i (t.foldr (fun a x => updV x a (body a x)) init) := by
          rw [List.foldr_cons]
          simp [updV]
        rw [hval]
        apply hb
        intro j hj
        rw [hoff j (by omega)]
      · have hia : i ≠ a := by
          have := hat i hit
          omega
        rw [hoff i hia, ih1 i hit]
        apply hb
        intro j hj
        have hja : j ≠ a := by
          have := hat i hit
          omega
        rw [hoff j hja]
    · intro i hi
      rw [List.mem_cons, not_or] at hi
      obtain ⟨hia, hit⟩ := hi
      rw [hoff i hia, ih2 i hit]

theorem pairwise_lt_range (n : ℕ) : List.Pairwise (· < ·) (List.range n) :=
  List.pairwise_lt_range n

theorem forwardSub_spec (s : LUState) (n : ℕ) (b : ℕ → ℚ) :
    ∀ i, i < n → forwardSub s n b i
      = b (s.piv i) - ∑ j ∈ Finset.range i, s.LU i j * forwardSub s n b j := by
  intro i hi
  have hb : ∀ a (x y : ℕ → ℚ), (∀ j, j < a → x j = y j) →
      (b (s.piv a) - ∑ j ∈ Finset.range a, s.LU a j * x j)
        = b (s.piv a) - ∑ j ∈ Finset.range a, s.LU a j * y j := by
    intro a x y hxy
    congr 1
    apply Finset.sum_congr rfl
    intro j hj
    rw [Finset.mem_range] at hj
    rw [hxy j hj]
  obtain ⟨h1, _⟩ := foldl_updV_stable
    (fun a x => b (s.piv a) - ∑ j ∈ Finset.range a, s.LU a j * x j) hb
    (List.range n) (fun _ => 0) (pairwise_lt_range n)
  exact h1 i (List.mem_range.mpr hi)

theorem backSub_spec (s : LUState) (n : ℕ) (y : ℕ → ℚ) :
    ∀ i, i < n → backSub s n y i
      = (if |s.LU i i| < 1 / 10 ^ 22 then 0
         else (y i - ∑ j ∈ Finset.Ico (i + 1) n, s.LU i j * backSub s n y j) / s.LU i i) := by
  intro i hi
  have hb : ∀ a (x x2 : ℕ → ℚ), (∀ j, a < j → x j = x2 j) →
      (if |s.LU a a| < 1 / 10 ^ 22 then 0
       else (y a - ∑ j ∈ Finset.Ico (a + 1) n, s.LU a j * x j) / s.LU a a)
        = (if |s.LU a a| < 1 / 10 ^ 22 then 0
       else (y a - ∑ j ∈ Finset.Ico (a + 1) n, s.LU a j * x2 j) / s.LU a a) := by
    intro a x x2 hxy
    have hs : ∑ j ∈ Finset.Ico (a + 1) n, s.LU a j * x j
        = ∑ j ∈ Finset.Ico (a + 1) n, s.LU a j * x2 j := by
      apply Finset.sum_congr rfl
      intro j hj
      rw [Finset.mem_Ico] at hj
      rw [hxy j (by omega)]
    rw [hs]
  obtain ⟨h1, _⟩ := foldr_updV_stable
    (fun a x => if |s.LU a a| < 1 / 10 ^ 22 then 0
       else (y a - ∑ j ∈ Finset.Ico (a + 1) n, s.LU a j * x j) / s.LU a a) hb
    (List.range n) (fun _ => 0) (pairwise_lt_range n)
  exact h1 i (List.mem_range.mpr hi)

end Beam

namespace Beam

theorem backSub_tri (s : LUState) (n : ℕ) (y : ℕ → ℚ)
    (hdiag : ∀ i, i < n → 1 / 10 ^ 22 ≤ |s.LU i i|) :
    ∀ i, i < n →
      ∑ c ∈ Finset.range n, Apart s.LU n i c * backSub s n y c = y i := by
  intro i hi
  have hmin : min n i = i := by omega
  have hne : s.LU i i ≠ 0 := by
    intro hzero
    have := hdiag i hi
    rw [hzero] at this
    simp at this
    linarith
  have hsplit : Finset.range n = Finset.Ico 0 n := by
    rw [Finset.range_eq_Ico]
  rw [hsplit, ← Finset.sum_Ico_consecutive _ (Nat.zero_le i) (le_of_lt hi)]
  have hzero1 : ∑ c ∈ Finset.Ico 0 i, Apart s.LU n i c * backSub s n y c = 0 := by
    apply Finset.sum_eq_zero
    intro c hc
    rw [Finset.mem_Ico] at hc
    have : c < min n i := by omega
    simp only [Apart, if_pos this, zero_mul]
  rw [hzero1, zero_add]
  have hbot : ∑ c ∈ Finset.Ico i n, Apart s.LU n i c * backSub s n y c
      = Apart s.LU n i i * backSub s n y i
        + ∑ c ∈ Finset.Ico (i + 1) n, Apart s.LU n i c * backSub s n y c :=
    Finset.sum_eq_sum_Ico_succ_bot hi _
  rw [hbot]
  have ha1 : Apart s.LU n i i = s.LU i i := by
    have : ¬(i < min n i) := by omega
    simp only [Apart, if_neg this]
  have ha2 : ∑ c ∈ Finset.Ico (i + 1) n, Apart s.LU n i c * backSub s n y c
      = ∑ c ∈ Finset.Ico (i + 1) n, s.LU i c * backSub s n y c := by
    apply Finset.sum_congr rfl
    intro c hc
    rw [Finset.mem_Ico] at hc
    have : ¬(c < min n i) := by omega
    simp only [Apart, if_neg this]
  rw [ha1, ha2]
  have hx := backSub_spec s n y i hi
  have hguard : ¬(|s.LU i i| < 1 / 10 ^ 22) := by
    rw [not_lt]
    exact hdiag i hi
  rw [if_neg hguard] at hx
  rw [hx, mul_div_cancel₀ _ hne]
  ring

theorem forwardSub_tri (s : LUState) (n : ℕ) (b : ℕ → ℚ) :
    ∀ i, i < n →
      ∑ k ∈ Finset.range n, Lpart s.LU n i k * forwardSub s n b k = b (s.piv i) := by
  intro i hi
  rw [Lpart_sum s.LU n i n hi]
  have hmin : min n i = i := by omega
  rw [hmin, forwardSub_spec s n b i hi]
  ring

/-- **C5.** Round-trip of the dense solver: for every `n × n` matrix `K`
whose factorization triggers neither degeneracy guard (every selected pivot
has magnitude `≥ 1e-18`, every diagonal entry of the finished buffer has
magnitude `≥ 1e-22`), and every right-hand side `b`, the solution
`x = solve(b)` satisfies `K·x = b` exactly (row by row, over exact
rational arithmetic). -/
theorem C5_lu_roundtrip (K : ℕ → ℕ → ℚ) (n : ℕ) (b : ℕ → ℚ)
    (hpiv : ∀ i, i < n → 1 / 10 ^ 18 ≤ luPivotMax K n i)
    (hdiag : ∀ i, i < n → 1 / 10 ^ 22 ≤ |(luFactor K n).LU i i|) :
    ∀ r, r < n → ∑ c ∈ Finset.range n, K r c * solveFun K n b c = b r := by
  have hinv : LUInv K n n (luFactor K n) := LUInv_all K n hpiv n (le_refl n)
  obtain ⟨hbij, hfix, hsum⟩ := hinv
  set s := luFactor K n with hsdef
  set y := forwardSub s n b with hydef
  have hxdef : solveFun K n b = backSub s n y := rfl
  have main : ∀ r, r < n →
      ∑ c ∈ Finset.range n, K (s.piv r) c * backSub s n y c = b (s.piv r) := by
    intro r hr
    have step1 : ∑ c ∈ Finset.range n, K (s.piv r) c * backSub s n y c
        = ∑ c ∈ Finset.range n,
            (∑ k ∈ Finset.range n, Lpart s.LU n r k * Apart s.LU n k c)
              * backSub s n y c := by
      apply Finset.sum_congr rfl
      intro c hc
      rw [Finset.mem_range] at hc
      rw [hsum r c hr hc]
    rw [step1]
    have step2 : ∑ c ∈ Finset.range n,
        (∑ k ∈ Finset.range n, Lpart s.LU n r k * Apart s.LU n k c) * backSub s n y c
        = ∑ k ∈ Finset.range n,
            Lpart s.LU n r k * ∑ c ∈ Finset.range n, Apart s.LU n k c * backSub s n y c := by
      simp only [Finset.sum_mul, Finset.mul_sum]
      rw [Finset.sum_comm]
      apply Finset.sum_congr rfl
      intro k _
      apply Finset.sum_congr rfl
      intro c _
      ring
    rw [step2]
    have step3 : ∑ k ∈ Finset.range n,
        Lpart s.LU n r k * ∑ c ∈ Finset.range n, Apart s.LU n k c * backSub s n y c
        = ∑ k ∈ Finset.range n, Lpart s.LU n r k * y k := by
      apply Finset.sum_congr rfl
      intro k hk
      rw [Finset.mem_range] at hk
      rw [backSub_tri s n y hdiag k hk]
    rw [step3]
    exact forwardSub_tri s n b r hr
  intro r hr
  obtain ⟨t, ht⟩ := hbij.2 r
  have htn : t < n := by
    by_contra hge
    rw [not_lt] at hge
    rw [hfix t hge] at ht
    omega
  rw [hxdef, ← ht]
  exact main t htn

end Beam

/-- **C8.** The dense solver is total and never divides below its guards:
a pivot column whose scanned maximum is below `1e-18` leaves the state
unchanged (no swap, no elimination); in `solve`, a component whose diagonal
entry has magnitude below `1e-22` is forced to `0`; and `solve` always
returns a vector of length `n`, with no error escalated. -/
theorem C8_lusolver_guards (K : ℕ → ℕ → ℚ) (n : ℕ) (b : ℕ → ℚ) :
    (∀ (s : Beam.LUState) (i : ℕ),
      (Beam.pivotSearch s.LU i n).1 < 1 / 10 ^ 18 → Beam.luStep n s i = s) ∧
    (∀ i, i < n → |(Beam.luFactor K n).LU i i| < 1 / 10 ^ 22 →
      Beam.solveFun K n b i = 0) ∧
    (Beam.solveList K n b).length = n := by
  refine ⟨?_, ?_, ?_⟩
  · intro s i h
    simp only [Beam.luStep]
    rw [if_pos h]
  · intro i hi h
    have hx := Beam.backSub_spec (Beam.luFactor K n) n
      (Beam.forwardSub (Beam.luFactor K n) n b) i hi
    rw [if_pos h] at hx
    exact hx
  · simp [Beam.solveList]

/-- Witness for C8 at the 1×1 zero matrix (both guards fire) and `b = 5`. -/
theorem C8_lusolver_guards_witness :
    ((Beam.pivotSearch (Beam.LUState.mk (fun _ _ => 0) (fun t => t)).LU 0 1).1
        < 1 / 10 ^ 18 ∧
      Beam.luStep 1 (Beam.LUState.mk (fun _ _ => 0) (fun t => t)) 0
        = Beam.LUState.mk (fun _ _ => 0) (fun t => t)) ∧
    ((0 : ℕ) < 1 ∧ |(Beam.luFactor (fun _ _ => 0) 1).LU 0 0| < 1 / 10 ^ 22 ∧
      Beam.solveFun (fun _ _ => 0) 1 (fun _ => 5) 0 = 0) ∧
    (Beam.solveList (fun _ _ => 0) 1 (fun _ => 5)).length = 1 := by
  have hps : (Beam.pivotSearch (fun _ _ => (0 : ℚ)) 0 1).1 < 1 / 10 ^ 18 := by
    norm_num [Beam.pivotSearch, show List.range' 0 1 = [0] from rfl]
  have hlu : (Beam.luFactor (fun _ _ => (0 : ℚ)) 1).LU 0 0 = 0 := by
    have hstep := (C8_lusolver_guards (fun _ _ => 0) 1 (fun _ => 5)).1
      (Beam.LUState.mk (fun _ _ => 0) (fun t => t)) 0 hps
    have : Beam.luFactor (fun _ _ => (0 : ℚ)) 1
        = Beam.LUState.mk (fun _ _ => 0) (fun t => t) := by
      unfold Beam.luFactor Beam.luStates
      rw [show List.range 1 = [0] from rfl, List.foldl_cons, List.foldl_nil]
      exact hstep
    rw [this]
  obtain ⟨h1, h2, h3⟩ := C8_lusolver_guards (fun _ _ => 0) 1 (fun _ => 5)
  have habs : |(Beam.luFactor (fun _ _ => (0 : ℚ)) 1).LU 0 0| < 1 / 10 ^ 22 := by
    rw [hlu]
    norm_num
  exact ⟨⟨hps, h1 (Beam.LUState.mk (fun _ _ => 0) (fun t => t)) 0 hps⟩,
    ⟨Nat.zero_lt_one, habs, h2 0 Nat.zero_lt_one habs⟩, h3⟩

namespace Beam

/-- Concrete 2×2 matrix for the solver round-trip witness. -/
def luWitnessK : ℕ → ℕ → ℚ :=
  fun r c => if r = 0 then (if c = 0 then 2 else 1) else if c = 0 then 1 else 3

end Beam

/-- Witness for C5: the 2×2 system `[[2,1],[1,3]]·x = [1,1]` passes both
guards and round-trips. -/
theorem C5_lu_roundtrip_witness :
    (∀ i, i < 2 → 1 / 10 ^ 18 ≤ Beam.luPivotMax Beam.luWitnessK 2 i) ∧
    (∀ i, i < 2 → 1 / 10 ^ 22 ≤ |(Beam.luFactor Beam.luWitnessK 2).LU i i|) ∧
    (∀ r, r < 2 → ∑ c ∈ Finset.range 2,
      Beam.luWitnessK r c * Beam.solveFun Beam.luWitnessK 2 (fun _ => 1) c = 1) := by
  have hp : ∀ i, i < 2 → 1 / 10 ^ 18 ≤ Beam.luPivotMax Beam.luWitnessK 2 i := by
    intro i hi
    interval_cases i <;>
      norm_num [Beam.luPivotMax, Beam.luStates, Beam.luStep, Beam.pivotSearch,
        Beam.elimStep, Beam.swapRows, Beam.swapV, Beam.luWitnessK, abs_of_nonneg,
        show List.range 0 = ([] : List ℕ) from rfl,
        show List.range 1 = [0] from rfl,
        show List.range' 0 2 = [0, 1] from rfl,
        show List.range' 1 1 = [1] from rfl,
        List.foldl_cons, List.foldl_nil]
  have hd : ∀ i, i < 2 → 1 / 10 ^ 22 ≤ |(Beam.luFactor Beam.luWitnessK 2).LU i i| := by
    intro i hi
    interval_cases i <;>
      norm_num [Beam.luFactor, Beam.luStates, Beam.luStep, Beam.pivotSearch,
        Beam.elimStep, Beam.swapRows, Beam.swapV, Beam.luWitnessK, abs_of_nonneg,
        show List.range 2 = [0, 1] from rfl,
        show List.range' 0 2 = [0, 1] from rfl,
        show List.range' 1 1 = [1] from rfl,
        List.foldl_cons, List.foldl_nil]
  exact ⟨hp, hd, fun r hr => Beam.C5_lu_roundtrip Beam.luWitnessK 2 (fun _ => 1) hp hd r hr⟩

namespace Beam

/-! ## Mesh generation (`analyzeBeam`, solver.ts lines 101-118) -/

/-- The critical x-values inserted into the JS `Set`, in insertion order:
`0`, `L`, `probeX`, the support positions, and for each load its position
plus — for UDL/UVL loads with a defined end — its end position. -/
def rawCritical (L probeX : ℚ) (supports : List Support) (loads : List Load) : List ℚ :=
  [0, L, probeX] ++ supports.map (fun s => s.position)
    ++ loads.flatMap (fun l =>
        [l.position] ++
          (if l.type = LoadType.UDL ∨ l.type = LoadType.UVL then
            (match l.endPosition with
             | some e => [e]
             | none => []) else []))

/-- `Array.from(criticalX).sort((a, b) => a - b)`: the distinct critical
values in ascending order (the JS `Set` keeps first occurrences; the
ascending sort makes the resulting value independent of insertion
order). -/
def sortedXs (L probeX : ℚ) (supports : List Support) (loads : List Load) : List ℚ :=
  ((rawCritical L probeX supports loads).dedup).insertionSort (· ≤ ·)

/-- `minInterval = Math.max(0.1, L / 100)`. -/
def minIntervalOf (L : ℚ) : ℚ := max (1 / 10) (L / 100)

/-- `numSub = Math.max(1, Math.ceil((end - start) / minInterval))`. -/
def numSubOf (mi s e : ℚ) : ℕ := max 1 ⌈(e - s) / mi⌉.toNat

/-- One interval's emitted nodes: `start`, then the `numSub - 1` interior
subdivision points `start + j·(end-start)/numSub`, `j = 1, …, numSub-1`. -/
def blockOf (mi s e : ℚ) : List ℚ :=
  s :: (List.range (numSubOf mi s e - 1)).map
    (fun (j : ℕ) => s + (((j : ℚ) + 1) * (e - s)) / (numSubOf mi s e : ℚ))

/-- The loop over consecutive sorted critical values. -/
def meshAux (mi : ℚ) : List ℚ → List ℚ
  | s :: e :: rest => blockOf mi s e ++ meshAux mi (e :: rest)
  | _ => []

/-- `finalNodes`: the emitted blocks, then `L` pushed once at the end. -/
def finalNodes (cfg : BeamConfig) (supports : List Support) (loads : List Load)
    (probeX : ℚ) : List ℚ :=
  meshAux (minIntervalOf cfg.length) (sortedXs cfg.length probeX supports loads)
    ++ [cfg.length]

/-! ## Remaining pipeline of `analyzeBeam` (solver.ts lines 81-326) -/

/-- `findClosestNodeIndex`: the first index minimizing `|nodes[i] - x|`
(`minDiff` starts at `Infinity`, embedded as `⊤` in `WithTop ℚ`). -/
def findClosestNodeIndex (nodes : List ℚ) (x : ℚ) : ℕ :=
  ((List.range nodes.length).foldl
    (fun (st : WithTop ℚ × ℕ) i =>
      let d : WithTop ℚ := ((|getV nodes i - x| : ℚ) : WithTop ℚ)
      if d < st.1 then (d, i) else st)
    (⊤, 0)).2

/-- `E * I` with the source's internal scaling
(`E = elasticModulus * 1e6`, `I = momentOfInertia * 1e-12`). -/
def EIOf (cfg : BeamConfig) : ℚ :=
  (cfg.elasticModulus * 1000000) * (cfg.momentOfInertia / 10 ^ 12)

/-- `penalty = 1e18 * EI`. -/
def penaltyOf (cfg : BeamConfig) : ℚ := 10 ^ 18 * EIOf cfg

/-- The set of node indices hosting a HINGE support. -/
def hingeNodesOf (nodes : List ℚ) (supports : List Support) : Finset ℕ :=
  supports.foldl
    (fun acc s =>
      if s.type = SupportType.HINGE
      then insert (findClosestNodeIndex nodes s.position) acc else acc) ∅

/-- Add `v` to entry `(a, b)` (the `+=` scatter). -/
def addM (m : ℕ → ℕ → ℚ) (a b : ℕ) (v : ℚ) : ℕ → ℕ → ℚ := updM m a b (m a b + v)

/-- Add `v` at index `a`. -/
def addV (f : ℕ → ℚ) (a : ℕ) (v : ℚ) : ℕ → ℚ := updV f a (f a + v)

/-- The element DOF index map `[i*2, i*2+1, (i+1)*2, (i+1)*2+1]`. -/
def elemIdxs (i : ℕ) : List ℕ := [i * 2, i * 2 + 1, (i + 1) * 2, (i + 1) * 2 + 1]

/-- Global stiffness assembly (solver.ts lines 130-147): for each element,
build the local stiffness, apply moment release when an end node hosts a
hinge, and scatter into the `2N × 2N` global matrix. -/
def assembleK (EI : ℚ) (nodes : List ℚ) (hinges : Finset ℕ) : ℕ → ℕ → ℚ :=
  (List.range (nodes.length - 1)).foldl
    (fun K i =>
      let x1 := getV nodes i
      let x2 := getV nodes (i + 1)
      let Le := x2 - x1
      if Le ≤ 0 then K
      else
        let ke0 := elementStiffness EI Le
        let rs := decide (i ∈ hinges)
        let re := decide (i + 1 ∈ hinges)
        let ke := if rs || re then (applyMomentRelease ke0 [0, 0, 0, 0] rs re).1 else ke0
        (List.range 4).foldl
          (fun K2 r => (List.range 4).foldl
            (fun K3 c =>
              addM K3 ((elemIdxs i).getD r 0) ((elemIdxs i).getD c 0) (getM ke r c)) K2)
          K)
    (fun _ _ => 0)

/-- Penalty boundary conditions (solver.ts lines 149-158). -/
def applyPenalty (penalty : ℚ) (nodes : List ℚ) (supports : List Support)
    (K : ℕ → ℕ → ℚ) : ℕ → ℕ → ℚ :=
  supports.foldl
    (fun K2 s =>
      let idx := findClosestNodeIndex nodes s.position
      match s.type with
      | SupportType.FIXED =>
          addM (addM K2 (idx * 2) (idx * 2) penalty) (idx * 2 + 1) (idx * 2 + 1) penalty
      | SupportType.PINNED => addM K2 (idx * 2) (idx * 2) penalty
      | SupportType.ROLLER => addM K2 (idx * 2) (idx * 2) penalty
      | SupportType.HINGE => K2)
    K

/-- The global stiffness matrix handed to `new LUSolver(...)`. -/
def KOf (cfg : BeamConfig) (supports : List Support) (loads : List Load)
    (probeX : ℚ) : ℕ → ℕ → ℚ :=
  let nodes := finalNodes cfg supports loads probeX
  applyPenalty (penaltyOf cfg) nodes supports
    (assembleK (EIOf cfg) nodes (hingeNodesOf nodes supports))

/-- The distributed (UDL/UVL) contribution of `currentLoads` to one
element's equivalent force vector, with the end-shear split written as
`totalW/2` (solver.ts lines 175-193). -/
def distributedFe (x1 x2 : ℚ) (currentLoads : List Load) : List ℚ :=
  currentLoads.foldl
    (fun fe load =>
      if load.type = LoadType.UDL ∨ load.type = LoadType.UVL then
        match load.endPosition with
        | none => fe
        | some ep =>
          let xA := max x1 load.position
          let xB := min x2 ep
          if xA < xB - 1 / 10 ^ 9 then
            let wStart := load.magnitude
            let wEnd := if load.type = LoadType.UVL then load.endMagnitude.getD wStart
                        else wStart
            let t1 := (xA - load.position) / (ep - load.position)
            let t2 := (xB - load.position) / (ep - load.position)
            let q1 := (wStart + (wEnd - wStart) * t1) * 1000
            let q2 := (wStart + (wEnd - wStart) * t2) * 1000
            let loadLen := xB - xA
            let totalW := (q1 + q2) * loadLen / 2
            let mFE := (q1 + q2) * loadLen * loadLen / 24
            let fe1 := fe.set 0 (getV fe 0 - totalW / 2)
            let fe2 := fe1.set 2 (getV fe1 2 - totalW / 2)
            let fe3 := fe2.set 1 (getV fe2 1 - mFE)
            fe3.set 3 (getV fe3 3 + mFE)
          else fe
      else fe)
    [0, 0, 0, 0]

/-- `buildLoadVector` (solver.ts lines 163-219). -/
def buildLoadVector (nodes : List ℚ) (hinges : Finset ℕ) (EI : ℚ)
    (currentLoads : List Load) : ℕ → ℚ :=
  let hasDistributed := currentLoads.any
    (fun l => decide (l.type = LoadType.UDL ∨ l.type = LoadType.UVL))
  let F0 : ℕ → ℚ := fun _ => 0
  let F1 :=
    if hasDistributed then
      (List.range (nodes.length - 1)).foldl
        (fun F i =>
          let x1 := getV nodes i
          let x2 := getV nodes (i + 1)
          let Le := x2 - x1
          if Le ≤ 0 then F
          else
            let fe0 := distributedFe x1 x2 currentLoads
            let rs := decide (i ∈ hinges)
            let re := decide (i + 1 ∈ hinges)
            let fe := if rs || re then
                (applyMomentRelease (elementStiffness EI Le) fe0 rs re).2
              else fe0
            (List.range 4).foldl
              (fun F2 r => addV F2 ((elemIdxs i).getD r 0) (getV fe r)) F)
        F0
    else F0
  currentLoads.foldl
    (fun F load =>
      match load.type with
      | LoadType.POINT =>
          addV F (findClosestNodeIndex nodes load.position * 2) (-(load.magnitude * 1000))
      | LoadType.MOMENT =>
          addV F (findClosestNodeIndex nodes load.position * 2 + 1) (load.magnitude * 1000)
      | _ => F)
    F1

/-- The distributed contribution inside `getInternalAt`, with the end
shears written as `(q1+q2)·loadLen/4` (solver.ts lines 235-252). -/
def distributedFeInt (x1 x2 : ℚ) (currentLoads : List Load) : List ℚ :=
  currentLoads.foldl
    (fun fe load =>
      if load.type = LoadType.UDL ∨ load.type = LoadType.UVL then
        match load.endPosition with
        | none => fe
        | some ep =>
          let xA := max x1 load.position
          let xB := min x2 ep
          if xA < xB - 1 / 10 ^ 9 then
            let wStart := load.magnitude
            let wEnd := if load.type = LoadType.UVL then load.endMagnitude.getD wStart
                        else wStart
            let t1 := (xA - load.position) / (ep - load.position)
            let t2 := (xB - load.position) / (ep - load.position)
            let q1 := (wStart + (wEnd - wStart) * t1) * 1000
            let q2 := (wStart + (wEnd - wStart) * t2) * 1000
            let loadLen := xB - xA
            let mFE := (q1 + q2) * loadLen * loadLen / 24
            let fe1 := fe.set 0 (getV fe 0 - (q1 + q2) * loadLen / 4)
            let fe2 := fe1.set 2 (getV fe1 2 - (q1 + q2) * loadLen / 4)
            let fe3 := fe2.set 1 (getV fe2 1 - mFE)
            fe3.set 3 (getV fe3 3 + mFE)
          else fe
      else fe)
    [0, 0, 0, 0]

/-- `getInternalAt` (solver.ts lines 224-270). -/
def getInternalAt (nodes : List ℚ) (hinges : Finset ℕ) (EI : ℚ)
    (disp : ℕ → ℚ) (xTarget : ℚ) (currentLoads : List Load) (side : Side) :
    InternalForces :=
  let numNodes := nodes.length
  let nodeIdx := findClosestNodeIndex nodes xTarget
  let e0 : ℤ := if side = Side.left then (nodeIdx : ℤ) - 1 else (nodeIdx : ℤ)
  let e1 : ℤ := if e0 < 0 then 0 else e0
  let e2 : ℤ := if (numNodes : ℤ) - 1 ≤ e1 then (numNodes : ℤ) - 2 else e1
  let elemIdx : ℕ := e2.toNat
  let x1 := getV nodes elemIdx
  let x2 := getV nodes (elemIdx + 1)
  let Le := x2 - x1
  if Le ≤ 0 then ⟨0, 0⟩
  else
    let ke0 := elementStiffness EI Le
    let fe0 := distributedFeInt x1 x2 currentLoads
    let rs := decide (elemIdx ∈ hinges)
    let re := decide (elemIdx + 1 ∈ hinges)
    let st := if rs || re then applyMomentRelease ke0 fe0 rs re else (ke0, fe0)
    let u_e : List ℚ := [disp (elemIdx * 2), disp (elemIdx * 2 + 1),
      disp ((elemIdx + 1) * 2), disp ((elemIdx + 1) * 2 + 1)]
    let f : ℕ → ℚ := fun r =>
      getV st.2 r + ∑ c ∈ Finset.range 4, getM st.1 r c * getV u_e c
    if nodeIdx = elemIdx then ⟨f 0 / 1000, -(f 1) / 1000⟩
    else ⟨-(f 2) / 1000, f 3 / 1000⟩

/-- `U = solver.solve(F_main)` as an index function. -/
def mainU (cfg : BeamConfig) (supports : List Support) (loads : List Load)
    (probeX : ℚ) : ℕ → ℚ :=
  let nodes := finalNodes cfg supports loads probeX
  solveFun (KOf cfg supports loads probeX) (nodes.length * 2)
    (buildLoadVector nodes (hingeNodesOf nodes supports) (EIOf cfg) loads)

/-- Reaction count: 2 per FIXED, 1 per PINNED/ROLLER, 0 per HINGE
(solver.ts line 293). -/
def reactionCountOf (supports : List Support) : ℕ :=
  supports.foldl
    (fun acc s => acc +
      (if s.type = SupportType.FIXED then 2
       else if s.type = SupportType.HINGE then 0 else 1))
    0

/-- `isStable = reactionCount >= 3`. -/
def isStableOf (supports : List Support) : Bool :=
  decide (3 ≤ reactionCountOf supports)

/-- `determinacy = reactionCount - 3 - hingeNodes.size`. -/
def determinacyOf (nodes : List ℚ) (supports : List Support) : ℤ :=
  (reactionCountOf supports : ℤ) - 3 - ((hingeNodesOf nodes supports).card : ℤ)

end Beam

namespace Beam

/-- `Math.max(...l)` on the nonempty arrays produced by the analysis. -/
def jsMax (l : List ℚ) : ℚ := l.foldl max (l.headD 0)

/-- `Math.min(...l)` on the nonempty arrays produced by the analysis. -/
def jsMin (l : List ℚ) : ℚ := l.foldl min (l.headD 0)

/-- The per-node shear array (solver.ts lines 272-279, `side = 'left'`). -/
def shearOf (cfg : BeamConfig) (supports : List Support) (loads : List Load)
    (probeX : ℚ) : List ℚ :=
  let nodes := finalNodes cfg supports loads probeX
  (List.range nodes.length).map
    (fun i => (getInternalAt nodes (hingeNodesOf nodes supports) (EIOf cfg)
      (mainU cfg supports loads probeX) (getV nodes i) loads Side.left).shear)

/-- The per-node bending moment array with the `1e-7` snap-to-zero
(solver.ts line 278). -/
def momentOf (cfg : BeamConfig) (supports : List Support) (loads : List Load)
    (probeX : ℚ) : List ℚ :=
  let nodes := finalNodes cfg supports loads probeX
  (List.range nodes.length).map
    (fun i =>
      let m := (getInternalAt nodes (hingeNodesOf nodes supports) (EIOf cfg)
        (mainU cfg supports loads probeX) (getV nodes i) loads Side.left).moment
      if |m| < 1 / 10 ^ 7 then 0 else m)

/-- The per-node deflection array: the even-indexed entries of `U`,
scaled by 1000 (solver.ts line 273). -/
def deflectionOf (cfg : BeamConfig) (supports : List Support) (loads : List Load)
    (probeX : ℚ) : List ℚ :=
  let nodes := finalNodes cfg supports loads probeX
  (List.range nodes.length).map
    (fun i => mainU cfg supports loads probeX (2 * i) * 1000)

/-- The reactions list (solver.ts lines 281-286). -/
def reactionsOf (cfg : BeamConfig) (supports : List Support) (loads : List Load)
    (probeX : ℚ) : List Reaction :=
  let nodes := finalNodes cfg supports loads probeX
  let U := mainU cfg supports loads probeX
  ((supports.filter (fun s => decide (¬ s.type = SupportType.HINGE))).enum).map
    (fun p =>
      let nIdx := findClosestNodeIndex nodes p.2.position
      { position := p.2.position
        force := penaltyOf cfg * U (nIdx * 2) / (-1000)
        moment := if p.2.type = SupportType.FIXED
                  then penaltyOf cfg * U (nIdx * 2 + 1) / 1000 else 0
        label := "R" ++ toString (p.1 + 1)
        id := p.2.id })

/-- Write key `k` of a JS object (overwrite if present, append if new). -/
def objSet (al : List (String × List ILDPoint)) (k : String) (v : List ILDPoint) :
    List (String × List ILDPoint) :=
  if al.any (fun p => p.1 = k) then al.map (fun p => if p.1 = k then (p.1, v) else p)
  else al ++ [(k, v)]

/-- `obj[k].push(pt)` on a JS object whose key `k` is present. -/
def objPush (al : List (String × List ILDPoint)) (k : String) (pt : ILDPoint) :
    List (String × List ILDPoint) :=
  al.map (fun p => if p.1 = k then (p.1, p.2 ++ [pt]) else p)

/-- Read key `k` of the object (`[]` when absent). -/
def objGet (al : List (String × List ILDPoint)) (k : String) : List ILDPoint :=
  ((al.find? (fun p => p.1 = k)).map Prod.snd).getD []

/-- `ildReactions` initialisation: an empty series per non-HINGE support
(solver.ts line 291). -/
def ildInit (supports : List Support) : List (String × List ILDPoint) :=
  supports.foldl
    (fun al s => if s.type = SupportType.HINGE then al else objSet al s.id []) []

/-- The `i`-th influence-line station position `x = (i/30)·L`. -/
def ildX (cfg : BeamConfig) (i : ℕ) : ℚ := ((i : ℚ) / 30) * cfg.length

/-- The traveling unit point load. -/
def unitLoadAt (x : ℚ) : List Load :=
  [⟨"unit", LoadType.POINT, 1, x, none, none⟩]

/-- The displacement solution for the unit load at station `i`
(`U_ild = solver.solve(buildLoadVector(unitLoad))`). -/
def ildU (cfg : BeamConfig) (supports : List Support) (loads : List Load)
    (probeX : ℚ) (i : ℕ) : ℕ → ℚ :=
  let nodes := finalNodes cfg supports loads probeX
  solveFun (KOf cfg supports loads probeX) (nodes.length * 2)
    (buildLoadVector nodes (hingeNodesOf nodes supports) (EIOf cfg)
      (unitLoadAt (ildX cfg i)))

/-- The probe shear/moment ordinate at station `i`, evaluated from the
right side when `x ≤ probeX` and from the left side otherwise. -/
def ildProbeForces (cfg : BeamConfig) (supports : List Support) (loads : List Load)
    (probeX : ℚ) (i : ℕ) : InternalForces :=
  let nodes := finalNodes cfg supports loads probeX
  getInternalAt nodes (hingeNodesOf nodes supports) (EIOf cfg)
    (ildU cfg supports loads probeX i) probeX (unitLoadAt (ildX cfg i))
    (if ildX cfg i ≤ probeX then Side.right else Side.left)

/-- The reaction ordinate of support `s` at station `i`. -/
def ildReactionValue (cfg : BeamConfig) (supports : List Support) (loads : List Load)
    (probeX : ℚ) (s : Support) (i : ℕ) : ℚ :=
  let nodes := finalNodes cfg supports loads probeX
  penaltyOf cfg * ildU cfg supports loads probeX i
    (findClosestNodeIndex nodes s.position * 2) / (-1000)

/-- One influence-line station (solver.ts lines 299-315): place the unit
load at `x`, solve, record every non-HINGE support's reaction ordinate and
the probe shear/moment ordinate with the side selection
`x <= probeX ? 'right' : 'left'`. -/
def ildStation (cfg : BeamConfig) (supports : List Support) (loads : List Load)
    (probeX : ℚ)
    (st : List (String × List ILDPoint) × List ILDPoint × List ILDPoint)
    (i : ℕ) : List (String × List ILDPoint) × List ILDPoint × List ILDPoint :=
  let x := ildX cfg i
  let al2 := supports.foldl
    (fun al s =>
      if s.type = SupportType.HINGE then al
      else objPush al s.id ⟨x, ildReactionValue cfg supports loads probeX s i⟩)
    st.1
  (al2, st.2.1 ++ [⟨x, (ildProbeForces cfg supports loads probeX i).shear⟩],
    st.2.2 ++ [⟨x, (ildProbeForces cfg supports loads probeX i).moment⟩])

/-- The influence-line sweep: 31 stations when stable, nothing otherwise
(solver.ts lines 297-316). -/
def ildSweep (cfg : BeamConfig) (supports : List Support) (loads : List Load)
    (probeX : ℚ) : List (String × List ILDPoint) × List ILDPoint × List ILDPoint :=
  if isStableOf supports then
    (List.range 31).foldl (ildStation cfg supports loads probeX)
      (ildInit supports, [], [])
  else (ildInit supports, [], [])

/-- The `AnalysisResults` record built by a successful `analyzeBeam` call. -/
def analyzeBeamCore (cfg : BeamConfig) (supports : List Support) (loads : List Load)
    (probeX : ℚ) : AnalysisResults :=
  let nodes := finalNodes cfg supports loads probeX
  { nodes := nodes
    shearForce := shearOf cfg supports loads probeX
    bendingMoment := momentOf cfg supports loads probeX
    deflection := deflectionOf cfg supports loads probeX
    reactions := reactionsOf cfg supports loads probeX
    maxShear := jsMax (shearOf cfg supports loads probeX)
    minShear := jsMin (shearOf cfg supports loads probeX)
    maxMoment := jsMax (momentOf cfg supports loads probeX)
    minMoment := jsMin (momentOf cfg supports loads probeX)
    maxDeflection := jsMax (deflectionOf cfg supports loads probeX)
    minDeflection := jsMin (deflectionOf cfg supports loads probeX)
    determinacy := determinacyOf nodes supports
    isStable := isStableOf supports
    ildReactions := (ildSweep cfg supports loads probeX).1
    ildShearAtProbe := (ildSweep cfg supports loads probeX).2.1
    ildMomentAtProbe := (ildSweep cfg supports loads probeX).2.2 }

/-- `analyzeBeam` (solver.ts lines 90-326): the invalid-geometry guard,
then the full pipeline. -/
def analyzeBeam (cfg : BeamConfig) (supports : List Support) (loads : List Load)
    (probeX : ℚ) : Except String AnalysisResults :=
  if cfg.length ≤ 0 ∨ EIOf cfg ≤ 0 then Except.error "Invalid beam geometry"
  else Except.ok (analyzeBeamCore cfg supports loads probeX)

end Beam

/-- **C1.** The internally scaled `EI` is
`(elasticModulus·1e6)·(momentOfInertia·1e-12)`; when `length ≤ 0` or
`EI ≤ 0` the call fails atomically with the distinguishable
"Invalid beam geometry" error and produces nothing else, and otherwise it
returns a complete `AnalysisResults` and never fails for this reason. -/
theorem C1_geometry_guard (cfg : Beam.BeamConfig) (supports : List Beam.Support)
    (loads : List Beam.Load) (probeX : ℚ) :
    (Beam.EIOf cfg = cfg.elasticModulus * 1000000 * (cfg.momentOfInertia * (1 / 10 ^ 12))) ∧
    (cfg.length ≤ 0 ∨ Beam.EIOf cfg ≤ 0 →
      Beam.analyzeBeam cfg supports loads probeX = Except.error "Invalid beam geometry") ∧
    (0 < cfg.length → 0 < Beam.EIOf cfg →
      Beam.analyzeBeam cfg supports loads probeX
        = Except.ok (Beam.analyzeBeamCore cfg supports loads probeX)) := by
  refine ⟨?_, ?_, ?_⟩
  · unfold Beam.EIOf
    ring
  · intro h
    unfold Beam.analyzeBeam
    rw [if_pos h]
  · intro h1 h2
    unfold Beam.analyzeBeam
    rw [if_neg (by push_neg; exact ⟨h1, h2⟩)]

/-- Witness for C1: a degenerate beam (`L = -1`) fails atomically, a valid
beam (`L = 1`, `E = I = 1`) returns the full record. -/
theorem C1_geometry_guard_witness :
    ((-1 : ℚ) ≤ 0 ∨ Beam.EIOf ⟨-1, 1, 1⟩ ≤ 0) ∧
    Beam.analyzeBeam ⟨-1, 1, 1⟩ [] [] 0 = Except.error "Invalid beam geometry" ∧
    ((0 : ℚ) < 1 ∧ 0 < Beam.EIOf ⟨1, 1, 1⟩) ∧
    Beam.analyzeBeam ⟨1, 1, 1⟩ [] [] 0
      = Except.ok (Beam.analyzeBeamCore ⟨1, 1, 1⟩ [] [] 0) := by
  have h1 : ((-1 : ℚ) ≤ 0 ∨ Beam.EIOf ⟨-1, 1, 1⟩ ≤ 0) := Or.inl (by norm_num)
  have h2 : (0 : ℚ) < 1 := by norm_num
  have h3 : 0 < Beam.EIOf ⟨1, 1, 1⟩ := by norm_num [Beam.EIOf]
  exact ⟨h1, (C1_geometry_guard ⟨-1, 1, 1⟩ [] [] 0).2.1 h1, ⟨h2, h3⟩,
    (C1_geometry_guard ⟨1, 1, 1⟩ [] [] 0).2.2 h2 h3⟩

namespace Beam

theorem numSubOf_pos (mi s e : ℚ) : 1 ≤ numSubOf mi s e := le_max_left 1 _

theorem numSubOf_ge (mi s e : ℚ) (hmi : 0 < mi) (hse : s < e) :
    e - s ≤ mi * (numSubOf mi s e : ℚ) := by
  have hq : (e - s) / mi ≤ (⌈(e - s) / mi⌉ : ℚ) := Int.le_ceil _
  have hpos : (0 : ℚ) < (e - s) / mi := div_pos (by linarith) hmi
  have hcpos : 0 < ⌈(e - s) / mi⌉ := Int.ceil_pos.mpr hpos
  have htn : ((⌈(e - s) / mi⌉.toNat : ℤ) : ℚ) = (⌈(e - s) / mi⌉ : ℚ) := by
    rw [Int.toNat_of_nonneg (le_of_lt hcpos)]
  have hns : (⌈(e - s) / mi⌉.toNat : ℚ) ≤ (numSubOf mi s e : ℚ) := by
    have : ⌈(e - s) / mi⌉.toNat ≤ numSubOf mi s e := le_max_right 1 _
    exact_mod_cast this
  have hkey : (e - s) / mi ≤ (numSubOf mi s e : ℚ) := by
    calc (e - s) / mi ≤ (⌈(e - s) / mi⌉ : ℚ) := hq
    _ = (⌈(e - s) / mi⌉.toNat : ℚ) := by exact_mod_cast htn.symm
    _ ≤ (numSubOf mi s e : ℚ) := hns
  calc e - s = (e - s) / mi * mi := by field_simp
  _ ≤ (numSubOf mi s e : ℚ) * mi := by
      apply mul_le_mul_of_nonneg_right hkey (le_of_lt hmi)
  _ = mi * (numSubOf mi s e : ℚ) := by ring

theorem blockOf_eq_map (mi s e : ℚ) :
    blockOf mi s e = (List.range (numSubOf mi s e)).map
      (fun (j : ℕ) => s + (j : ℚ) * ((e - s) / (numSubOf mi s e : ℚ))) := by
  obtain ⟨m, hm⟩ : ∃ m, numSubOf mi s e = m + 1 :=
    ⟨numSubOf mi s e - 1, by have := numSubOf_pos mi s e; omega⟩
  rw [blockOf, hm]
  simp only [Nat.add_sub_cancel]
  rw [List.range_succ_eq_map, List.map_cons, List.map_map]
  congr 1
  · norm_num
  · apply List.map_congr_left
    intro j hj
    simp only [Function.comp_apply]
    push_cast
    ring

theorem blockOf_spec (mi s e : ℚ) (hmi : 0 < mi) (hse : s < e) :
    List.Chain' (fun a b => a < b ∧ b - a ≤ mi) (blockOf mi s e) ∧
    blockOf mi s e ≠ [] ∧
    (blockOf mi s e).head? = some s ∧
    (∀ y, (blockOf mi s e).getLast? = some y → y < e ∧ e - y ≤ mi) ∧
    (∀ y ∈ blockOf mi s e, s ≤ y ∧ y < e) := by
  set n := numSubOf mi s e with hndef
  have hn1 : 1 ≤ n := numSubOf_pos mi s e
  have hnq : (0 : ℚ) < (n : ℚ) := by exact_mod_cast hn1
  have hnne : (n : ℚ) ≠ 0 := ne_of_gt hnq
  set d := (e - s) / (n : ℚ) with hddef
  have hd0 : 0 < d := div_pos (by linarith) hnq
  have hdmi : d ≤ mi := by
    rw [hddef, div_le_iff₀ hnq]
    calc e - s ≤ mi * (n : ℚ) := numSubOf_ge mi s e hmi hse
    _ = mi * (n : ℚ) := rfl
  have hnd : (n : ℚ) * d = e - s := by
    rw [hddef]
    field_simp
  have hmap : blockOf mi s e
      = (List.range n).map (fun (j : ℕ) => s + (j : ℚ) * d) :=
    blockOf_eq_map mi s e
  obtain ⟨m, hm⟩ : ∃ m, n = m + 1 := ⟨n - 1, by omega⟩
  have hmq : ((m : ℚ) + 1) * d = e - s := by
    have : ((n : ℚ)) = (m : ℚ) + 1 := by
      rw [hm]
      push_cast
      ring
    rw [← this]
    exact hnd
  refine ⟨?_, ?_, ?_, ?_, ?_⟩
  · rw [hmap, List.chain'_map, hm, List.chain'_range_succ]
    intro i hi
    have hstep : s + ((i : ℚ) + 1) * d - (s + (i : ℚ) * d) = d := by ring
    constructor
    · push_cast
      linarith
    · push_cast
      linarith
  · rw [hmap, hm, List.range_succ_eq_map]
    simp
  · rw [hmap, hm, List.range_succ_eq_map, List.map_cons]
    simp
  · intro y hy
    rw [hmap, hm, List.range_succ, List.map_append] at hy
    simp only [List.map_cons, List.map_nil, List.getLast?_concat, Option.some.injEq] at hy
    subst hy
    constructor
    · nlinarith
    · nlinarith
  · intro y hy
    rw [hmap, List.mem_map] at hy
    obtain ⟨j, hj, rfl⟩ := hy
    rw [List.mem_range] at hj
    have hjq : (j : ℚ) < (n : ℚ) := by exact_mod_cast hj
    constructor
    · nlinarith [Nat.cast_nonneg (α := ℚ) j]
    · nlinarith

end Beam

namespace Beam

theorem meshAux_spec (mi : ℚ) (hmi : 0 < mi) :
    ∀ (l : List ℚ) (z : ℚ), List.Chain' (· < ·) l → l.getLast? = some z →
      List.Chain' (fun a b => a < b ∧ b - a ≤ mi) (meshAux mi l ++ [z]) ∧
      (meshAux mi l ++ [z]).head? = l.head? ∧
      (∀ x ∈ l, x ∈ meshAux mi l ++ [z]) := by
  intro l
  induction l with
  | nil =>
    intro z _ hz
    simp at hz
  | cons s t ih =>
    intro z hchain hlast
    match t with
    | [] =>
      have hz : s = z := by
        simpa [List.getLast?] using hlast
      subst hz
      have hone : meshAux mi [s] = [] := rfl
      refine ⟨?_, ?_, ?_⟩ <;> simp [hone]
    | e :: rest =>
      have hse : s < e ∧ List.Chain' (· < ·) (e :: rest) :=
        List.chain'_cons.mp hchain
      have hlast2 : (e :: rest).getLast? = some z := by
        rwa [List.getLast?_cons_cons] at hlast
      obtain ⟨ihC, ihH, ihM⟩ := ih z hse.2 hlast2
      obtain ⟨bC, bNe, bH, bL, bB⟩ := blockOf_spec mi s e hmi hse.1
      have hshape : meshAux mi (s :: e :: rest) ++ [z]
          = blockOf mi s e ++ (meshAux mi (e :: rest) ++ [z]) := by
        rw [meshAux]
        rw [List.append_assoc]
      refine ⟨?_, ?_, ?_⟩
      · rw [hshape, List.chain'_append]
        refine ⟨bC, ihC, ?_⟩
        intro y hy w hw
        rw [ihH] at hw
        simp only [List.head?_cons, Option.mem_def, Option.some.injEq] at hw
        subst hw
        obtain ⟨h1, h2⟩ := bL y hy
        exact ⟨h1, h2⟩
      · rw [hshape]
        match hb : blockOf mi s e with
        | [] => exact absurd hb bNe
        | b0 :: bs =>
          rw [hb] at bH
          simp only [List.head?_cons, Option.some.injEq] at bH
          subst bH
          simp
      · intro x hx
        rw [hshape]
        rcases List.mem_cons.mp hx with rfl | hxt
        · apply List.mem_append_left
          have : (blockOf mi x e).head? = some x := bH
          exact List.mem_of_mem_head? this
        · exact List.mem_append_right _ (ihM x hxt)

end Beam

namespace Beam

theorem sortedXs_sorted (L probeX : ℚ) (supports : List Support) (loads : List Load) :
    List.Sorted (· ≤ ·) (sortedXs L probeX supports loads) :=
  List.sorted_insertionSort _ _

theorem sortedXs_nodup (L probeX : ℚ) (supports : List Support) (loads : List Load) :
    (sortedXs L probeX supports loads).Nodup :=
  (List.perm_insertionSort _ _).symm.nodup (List.nodup_dedup _)

theorem sortedXs_mem (L probeX : ℚ) (supports : List Support) (loads : List Load)
    (x : ℚ) :
    x ∈ sortedXs L probeX supports loads ↔ x ∈ rawCritical L probeX supports loads :=
  (List.perm_insertionSort _ _).mem_iff.trans (List.mem_dedup)

theorem sorted_nodup_pairwise (l : List ℚ) (hs : List.Sorted (· ≤ ·) l)
    (hn : l.Nodup) : List.Pairwise (· < ·) l := by
  induction l with
  | nil => exact List.Pairwise.nil
  | cons a t ih =>
    rw [List.sorted_cons] at hs
    rw [List.nodup_cons] at hn
    exact List.Pairwise.cons
      (fun b hb => lt_of_le_of_ne (hs.1 b hb) (fun he => hn.1 (he ▸ hb)))
      (ih hs.2 hn.2)

theorem sortedXs_chain (L probeX : ℚ) (supports : List Support) (loads : List Load) :
    List.Chain' (· < ·) (sortedXs L probeX supports loads) :=
  (sorted_nodup_pairwise _ (sortedXs_sorted L probeX supports loads)
    (sortedXs_nodup L probeX supports loads)).chain'


theorem sorted_head_eq (l : List ℚ) (a : ℚ) (hs : List.Sorted (· ≤ ·) l)
    (hmem : a ∈ l) (hlb : ∀ x ∈ l, a ≤ x) : l.head? = some a := by
  match l with
  | [] => exact absurd hmem (List.not_mem_nil a)
  | b :: t =>
    have hab : a ≤ b := hlb b (List.mem_cons_self b t)
    have hba : b ≤ a := by
      rcases List.mem_cons.mp hmem with rfl | hat
      · exact le_refl a
      · exact List.rel_of_sorted_cons hs a hat
    rw [List.head?_cons, le_antisymm hba hab]

theorem sorted_getLast_eq (l : List ℚ) (a : ℚ) (hs : List.Sorted (· ≤ ·) l)
    (hmem : a ∈ l) (hub : ∀ x ∈ l, x ≤ a) : l.getLast? = some a := by
  induction l with
  | nil => exact absurd hmem (List.not_mem_nil a)
  | cons b t ih =>
    match t, ih with
    | [], _ =>
      have : a = b := by
        rcases List.mem_cons.mp hmem with rfl | hat
        · rfl
        · exact absurd hat (List.not_mem_nil a)
      rw [this]
      rfl
    | c :: t2, ih =>
      rw [List.getLast?_cons_cons]
      apply ih hs.of_cons
      · rcases List.mem_cons.mp hmem with rfl | hat
        · have hbc : a ≤ c := List.rel_of_sorted_cons hs c (List.mem_cons_self c t2)
          have hcb : c ≤ a := hub c (List.mem_cons_of_mem a (List.mem_cons_self c t2))
          rw [le_antisymm hcb hbc]
          exact List.mem_cons_self a t2
        · exact hat
      · intro x hx
        exact hub x (List.mem_cons_of_mem b hx)

end Beam

namespace Beam

theorem raw_bounded (L probeX : ℚ) (supports : List Support) (loads : List Load)
    (hL : 0 < L) (hprobe : 0 ≤ probeX ∧ probeX ≤ L)
    (hsup : ∀ s ∈ supports, 0 ≤ s.position ∧ s.position ≤ L)
    (hpos : ∀ l ∈ loads, 0 ≤ l.position ∧ l.position ≤ L)
    (hend : ∀ l ∈ loads, ∀ e ∈ l.endPosition, 0 ≤ e ∧ e ≤ L) :
    ∀ x ∈ rawCritical L probeX supports loads, 0 ≤ x ∧ x ≤ L := by
  intro x hx
  simp only [rawCritical, List.mem_append, List.mem_cons, List.mem_map,
    List.mem_flatMap, List.not_mem_nil, or_false] at hx
  rcases hx with ((rfl | rfl | rfl) | ⟨s, hs, rfl⟩) | ⟨l, hl, hxl⟩
  · exact ⟨le_refl 0, le_of_lt hL⟩
  · exact ⟨le_of_lt hL, le_refl _⟩
  · exact hprobe
  · exact hsup s hs
  · rcases hxl with rfl | hx2
    · exact hpos l hl
    · by_cases hty : l.type = LoadType.UDL ∨ l.type = LoadType.UVL
      · rw [if_pos hty] at hx2
        match hep : l.endPosition with
        | none =>
          rw [hep] at hx2
          exact absurd hx2 (List.not_mem_nil x)
        | some e =>
          rw [hep] at hx2
          rw [List.mem_singleton] at hx2
          subst hx2
          exact hend l hl x (by rw [hep]; rfl)
      · rw [if_neg hty] at hx2
        exact absurd hx2 (List.not_mem_nil x)

theorem finalNodes_spec (cfg : BeamConfig) (supports : List Support)
    (loads : List Load) (probeX : ℚ)
    (hL : 0 < cfg.length) (hprobe : 0 ≤ probeX ∧ probeX ≤ cfg.length)
    (hsup : ∀ s ∈ supports, 0 ≤ s.position ∧ s.position ≤ cfg.length)
    (hpos : ∀ l ∈ loads, 0 ≤ l.position ∧ l.position ≤ cfg.length)
    (hend : ∀ l ∈ loads, ∀ e ∈ l.endPosition, 0 ≤ e ∧ e ≤ cfg.length) :
    List.Chain' (fun a b => a < b ∧ b - a ≤ minIntervalOf cfg.length)
      (finalNodes cfg supports loads probeX) ∧
    (finalNodes cfg supports loads probeX).head? = some 0 ∧
    (finalNodes cfg supports loads probeX).getLast? = some cfg.length ∧
    (∀ x ∈ rawCritical cfg.length probeX supports loads,
      x ∈ finalNodes cfg supports loads probeX) := by
  set L := cfg.length
  have hmi : 0 < minIntervalOf L :=
    lt_of_lt_of_le (by norm_num) (le_max_left (1 / 10) (L / 100))
  have hbd := raw_bounded L probeX supports loads hL hprobe hsup hpos hend
  have hbd2 : ∀ x ∈ sortedXs L probeX supports loads, 0 ≤ x ∧ x ≤ L := by
    intro x hx
    exact hbd x ((sortedXs_mem L probeX supports loads x).mp hx)
  have hLmem : L ∈ sortedXs L probeX supports loads := by
    rw [sortedXs_mem]
    simp [rawCritical]
  have h0mem : (0 : ℚ) ∈ sortedXs L probeX supports loads := by
    rw [sortedXs_mem]
    simp [rawCritical]
  have hlast : (sortedXs L probeX supports loads).getLast? = some L :=
    sorted_getLast_eq _ L (sortedXs_sorted L probeX supports loads) hLmem
      (fun x hx => (hbd2 x hx).2)
  have hhead : (sortedXs L probeX supports loads).head? = some 0 :=
    sorted_head_eq _ 0 (sortedXs_sorted L probeX supports loads) h0mem
      (fun x hx => (hbd2 x hx).1)
  obtain ⟨mC, mH, mM⟩ := meshAux_spec (minIntervalOf L) hmi
    (sortedXs L probeX supports loads) L
    (sortedXs_chain L probeX supports loads) hlast
  have hfn : finalNodes cfg supports loads probeX
      = meshAux (minIntervalOf L) (sortedXs L probeX supports loads) ++ [L] := rfl
  refine ⟨?_, ?_, ?_, ?_⟩
  · rw [hfn]
    exact mC
  · rw [hfn, mH, hhead]
  · rw [hfn]
    exact List.getLast?_concat _
  · intro x hx
    rw [hfn]
    exact mM x ((sortedXs_mem L probeX supports loads x).mpr hx)

theorem chain_count_one (l : List ℚ) (hc : List.Chain' (· < ·) l) (x : ℚ)
    (hx : x ∈ l) : l.count x = 1 :=
  List.count_eq_one_of_mem
    ((List.chain'_iff_pairwise.mp hc).imp (fun h => ne_of_lt h)) hx

end Beam

/-- **C2.** For valid input, the node sequence returned by `analyzeBeam`
is strictly increasing, begins with `0`, ends with `L`, contains the probe
position, every support position, every load position, and every UDL/UVL
end position exactly once (exactly equal to the input value), and no gap
between adjacent nodes exceeds `minInterval = max(0.1, L/100)`. -/
theorem C2_mesh_nodes (cfg : Beam.BeamConfig) (supports : List Beam.Support)
    (loads : List Beam.Load) (probeX : ℚ) (res : Beam.AnalysisResults)
    (hres : Beam.analyzeBeam cfg supports loads probeX = Except.ok res)
    (hprobe : 0 ≤ probeX ∧ probeX ≤ cfg.length)
    (hsup : ∀ s ∈ supports, 0 ≤ s.position ∧ s.position ≤ cfg.length)
    (hpos : ∀ l ∈ loads, 0 ≤ l.position ∧ l.position ≤ cfg.length)
    (hend : ∀ l ∈ loads, ∀ e ∈ l.endPosition, 0 ≤ e ∧ e ≤ cfg.length) :
    List.Chain' (· < ·) res.nodes ∧
    res.nodes.head? = some 0 ∧
    res.nodes.getLast? = some cfg.length ∧
    res.nodes.count probeX = 1 ∧
    (∀ s ∈ supports, res.nodes.count s.position = 1) ∧
    (∀ l ∈ loads, res.nodes.count l.position = 1) ∧
    (∀ l ∈ loads, (l.type = Beam.LoadType.UDL ∨ l.type = Beam.LoadType.UVL) →
      ∀ e ∈ l.endPosition, res.nodes.count e = 1) ∧
    List.Chain' (fun a b => b - a ≤ Beam.minIntervalOf cfg.length) res.nodes := by
  by_cases hg : cfg.length ≤ 0 ∨ Beam.EIOf cfg ≤ 0
  · rw [Beam.analyzeBeam, if_pos hg] at hres
    exact absurd hres (by simp)
  · rw [Beam.analyzeBeam, if_neg hg] at hres
    push_neg at hg
    obtain ⟨hL, _⟩ := hg
    have hcore : Beam.analyzeBeamCore cfg supports loads probeX = res := by
      injection hres
    have hnodes : res.nodes = Beam.finalNodes cfg supports loads probeX := by
      rw [← hcore]
      rfl
    obtain ⟨fC, fH, fL2, fM⟩ := Beam.finalNodes_spec cfg supports loads probeX
      hL hprobe hsup hpos hend
    have fLt : List.Chain' (· < ·) (Beam.finalNodes cfg supports loads probeX) :=
      fC.imp (fun a b h => h.1)
    have fGap : List.Chain' (fun a b => b - a ≤ Beam.minIntervalOf cfg.length)
        (Beam.finalNodes cfg supports loads probeX) :=
      fC.imp (fun a b h => h.2)
    have hcount : ∀ x ∈ Beam.rawCritical cfg.length probeX supports loads,
        (Beam.finalNodes cfg supports loads probeX).count x = 1 :=
      fun x hx => Beam.chain_count_one _ fLt x (fM x hx)
    rw [hnodes]
    refine ⟨fLt, fH, fL2, ?_, ?_, ?_, ?_, fGap⟩
    · apply hcount
      unfold Beam.rawCritical
      apply List.mem_append_left
      apply List.mem_append_left
      simp
    · intro s hs
      apply hcount
      unfold Beam.rawCritical
      apply List.mem_append_left
      apply List.mem_append_right
      exact List.mem_map_of_mem _ hs
    · intro l hl
      apply hcount
      unfold Beam.rawCritical
      apply List.mem_append_right
      rw [List.mem_flatMap]
      exact ⟨l, hl, List.mem_append_left _ (List.mem_singleton.mpr rfl)⟩
    · intro l hl hty e he
      apply hcount
      unfold Beam.rawCritical
      apply List.mem_append_right
      rw [List.mem_flatMap]
      refine ⟨l, hl, List.mem_append_right _ ?_⟩
      rw [if_pos hty]
      rw [Option.mem_def] at he
      rw [he]
      exact List.mem_singleton.mpr rfl

/-- Witness for C2: a simply supported beam of length `1/5` with a point
load and the probe at midspan. -/
theorem C2_mesh_nodes_witness :
    (Beam.analyzeBeam ⟨1/5, 1, 1⟩
        [⟨"s1", Beam.SupportType.PINNED, 0⟩, ⟨"s2", Beam.SupportType.ROLLER, 1/5⟩]
        [⟨"l1", Beam.LoadType.POINT, 5, 1/10, none, none⟩] (1/10)
      = Except.ok (Beam.analyzeBeamCore ⟨1/5, 1, 1⟩
        [⟨"s1", Beam.SupportType.PINNED, 0⟩, ⟨"s2", Beam.SupportType.ROLLER, 1/5⟩]
        [⟨"l1", Beam.LoadType.POINT, 5, 1/10, none, none⟩] (1/10))) ∧
    ((0 : ℚ) ≤ 1/10 ∧ (1/10 : ℚ) ≤ 1/5) ∧
    (List.Chain' (· < ·)
      (Beam.analyzeBeamCore ⟨1/5, 1, 1⟩
        [⟨"s1", Beam.SupportType.PINNED, 0⟩, ⟨"s2", Beam.SupportType.ROLLER, 1/5⟩]
        [⟨"l1", Beam.LoadType.POINT, 5, 1/10, none, none⟩] (1/10)).nodes ∧
      (Beam.analyzeBeamCore ⟨1/5, 1, 1⟩
        [⟨"s1", Beam.SupportType.PINNED, 0⟩, ⟨"s2", Beam.SupportType.ROLLER, 1/5⟩]
        [⟨"l1", Beam.LoadType.POINT, 5, 1/10, none, none⟩] (1/10)).nodes.count (1/10) = 1) := by
  have hg : ¬((1/5 : ℚ) ≤ 0 ∨ Beam.EIOf ⟨1/5, 1, 1⟩ ≤ 0) := by
    push_neg
    constructor
    · norm_num
    · norm_num [Beam.EIOf]
  have hok : Beam.analyzeBeam ⟨1/5, 1, 1⟩
      [⟨"s1", Beam.SupportType.PINNED, 0⟩, ⟨"s2", Beam.SupportType.ROLLER, 1/5⟩]
      [⟨"l1", Beam.LoadType.POINT, 5, 1/10, none, none⟩] (1/10)
      = Except.ok (Beam.analyzeBeamCore ⟨1/5, 1, 1⟩
        [⟨"s1", Beam.SupportType.PINNED, 0⟩, ⟨"s2", Beam.SupportType.ROLLER, 1/5⟩]
        [⟨"l1", Beam.LoadType.POINT, 5, 1/10, none, none⟩] (1/10)) := by
    rw [Beam.analyzeBeam, if_neg hg]
  have hmain := C2_mesh_nodes ⟨1/5, 1, 1⟩
    [⟨"s1", Beam.SupportType.PINNED, 0⟩, ⟨"s2", Beam.SupportType.ROLLER, 1/5⟩]
    [⟨"l1", Beam.LoadType.POINT, 5, 1/10, none, none⟩] (1/10) _ hok
    (by norm_num)
    (by intro s hs
        simp only [List.mem_cons, List.not_mem_nil, or_false] at hs
        rcases hs with rfl | rfl <;> norm_num)
    (by intro l hl
        simp only [List.mem_cons, List.not_mem_nil, or_false] at hl
        subst hl
        norm_num)
    (by intro l hl e he
        simp only [List.mem_cons, List.not_mem_nil, or_false] at hl
        subst hl
        exact absurd he (by simp))
  exact ⟨hok, by norm_num, hmain.1, hmain.2.2.2.1⟩

namespace Beam

/-- The internal forces recovered at node `i` for the main load case
(the value fed into the result arrays, side `'left'`). -/
def rawInternalAt (cfg : BeamConfig) (supports : List Support) (loads : List Load)
    (probeX : ℚ) (i : ℕ) : InternalForces :=
  let nodes := finalNodes cfg supports loads probeX
  getInternalAt nodes (hingeNodesOf nodes supports) (EIOf cfg)
    (mainU cfg supports loads probeX) (getV nodes i) loads Side.left

theorem getD_map_range (n i : ℕ) (f : ℕ → ℚ) (hi : i < n) :
    (((List.range n).map f).getD i 0) = f i := by
  rw [List.getD_eq_getElem?_getD, List.getElem?_map, List.getElem?_range hi]
  rfl

end Beam

/-- **C10.** In every result of `analyzeBeam`, the bending-moment entry at
node `i` is the recovered internal moment snapped to `0` exactly when its
magnitude is below `1e-7` (and reported unchanged when its magnitude is
`≥ 1e-7`), while the shear entry and the deflection entry at `i` are the
recovered shear and the scaled displacement with no snap applied. -/
theorem C10_moment_snap (cfg : Beam.BeamConfig) (supports : List Beam.Support)
    (loads : List Beam.Load) (probeX : ℚ) (res : Beam.AnalysisResults)
    (hres : Beam.analyzeBeam cfg supports loads probeX = Except.ok res)
    (i : ℕ) (hi : i < res.nodes.length) :
    (|(Beam.rawInternalAt cfg supports loads probeX i).moment| < 1 / 10 ^ 7 →
      res.bendingMoment.getD i 0 = 0) ∧
    (1 / 10 ^ 7 ≤ |(Beam.rawInternalAt cfg supports loads probeX i).moment| →
      res.bendingMoment.getD i 0 = (Beam.rawInternalAt cfg supports loads probeX i).moment) ∧
    res.shearForce.getD i 0 = (Beam.rawInternalAt cfg supports loads probeX i).shear ∧
    res.deflection.getD i 0 = Beam.mainU cfg supports loads probeX (2 * i) * 1000 := by
  by_cases hg : cfg.length ≤ 0 ∨ Beam.EIOf cfg ≤ 0
  · rw [Beam.analyzeBeam, if_pos hg] at hres
    exact absurd hres (by simp)
  · rw [Beam.analyzeBeam, if_neg hg] at hres
    have hcore : Beam.analyzeBeamCore cfg supports loads probeX = res := by
      injection hres
    subst hcore
    have hlen : (Beam.analyzeBeamCore cfg supports loads probeX).nodes.length
        = (Beam.finalNodes cfg supports loads probeX).length := rfl
    rw [hlen] at hi
    have hbm : (Beam.analyzeBeamCore cfg supports loads probeX).bendingMoment
        = Beam.momentOf cfg supports loads probeX := rfl
    have hsf : (Beam.analyzeBeamCore cfg supports loads probeX).shearForce
        = Beam.shearOf cfg supports loads probeX := rfl
    have hdf : (Beam.analyzeBeamCore cfg supports loads probeX).deflection
        = Beam.deflectionOf cfg supports loads probeX := rfl
    rw [hbm, hsf, hdf]
    unfold Beam.momentOf Beam.shearOf Beam.deflectionOf
    rw [Beam.getD_map_range _ i _ hi, Beam.getD_map_range _ i _ hi,
      Beam.getD_map_range _ i _ hi]
    refine ⟨?_, ?_, rfl, rfl⟩
    · intro hsmall
      show (if |(Beam.rawInternalAt cfg supports loads probeX i).moment| < 1 / 10 ^ 7
          then (0 : ℚ) else (Beam.rawInternalAt cfg supports loads probeX i).moment) = 0
      rw [if_pos hsmall]
    · intro hbig
      show (if |(Beam.rawInternalAt cfg supports loads probeX i).moment| < 1 / 10 ^ 7
          then (0 : ℚ) else (Beam.rawInternalAt cfg supports loads probeX i).moment)
        = (Beam.rawInternalAt cfg supports loads probeX i).moment
      rw [if_neg (not_lt.mpr hbig)]

/-- Witness for C10 at the simply supported test beam, node 0. -/
theorem C10_moment_snap_witness :
    (Beam.analyzeBeam ⟨1/5, 1, 1⟩
        [⟨"s1", Beam.SupportType.PINNED, 0⟩, ⟨"s2", Beam.SupportType.ROLLER, 1/5⟩]
        [⟨"l1", Beam.LoadType.POINT, 5, 1/10, none, none⟩] (1/10)
      = Except.ok (Beam.analyzeBeamCore ⟨1/5, 1, 1⟩
        [⟨"s1", Beam.SupportType.PINNED, 0⟩, ⟨"s2", Beam.SupportType.ROLLER, 1/5⟩]
        [⟨"l1", Beam.LoadType.POINT, 5, 1/10, none, none⟩] (1/10))) ∧
    0 < (Beam.analyzeBeamCore ⟨1/5, 1, 1⟩
        [⟨"s1", Beam.SupportType.PINNED, 0⟩, ⟨"s2", Beam.SupportType.ROLLER, 1/5⟩]
        [⟨"l1", Beam.LoadType.POINT, 5, 1/10, none, none⟩] (1/10)).nodes.length ∧
    ((Beam.analyzeBeamCore ⟨1/5, 1, 1⟩
        [⟨"s1", Beam.SupportType.PINNED, 0⟩, ⟨"s2", Beam.SupportType.ROLLER, 1/5⟩]
        [⟨"l1", Beam.LoadType.POINT, 5, 1/10, none, none⟩] (1/10)).shearForce.getD 0 0
      = (Beam.rawInternalAt ⟨1/5, 1, 1⟩
        [⟨"s1", Beam.SupportType.PINNED, 0⟩, ⟨"s2", Beam.SupportType.ROLLER, 1/5⟩]
        [⟨"l1", Beam.LoadType.POINT, 5, 1/10, none, none⟩] (1/10) 0).shear) := by
  have hg : ¬((1/5 : ℚ) ≤ 0 ∨ Beam.EIOf ⟨1/5, 1, 1⟩ ≤ 0) := by
    push_neg
    exact ⟨by norm_num, by norm_num [Beam.EIOf]⟩
  have hok : Beam.analyzeBeam ⟨1/5, 1, 1⟩
      [⟨"s1", Beam.SupportType.PINNED, 0⟩, ⟨"s2", Beam.SupportType.ROLLER, 1/5⟩]
      [⟨"l1", Beam.LoadType.POINT, 5, 1/10, none, none⟩] (1/10)
      = Except.ok (Beam.analyzeBeamCore ⟨1/5, 1, 1⟩
        [⟨"s1", Beam.SupportType.PINNED, 0⟩, ⟨"s2", Beam.SupportType.ROLLER, 1/5⟩]
        [⟨"l1", Beam.LoadType.POINT, 5, 1/10, none, none⟩] (1/10)) := by
    rw [Beam.analyzeBeam, if_neg hg]
  have hlen : 0 < (Beam.analyzeBeamCore ⟨1/5, 1, 1⟩
      [⟨"s1", Beam.SupportType.PINNED, 0⟩, ⟨"s2", Beam.SupportType.ROLLER, 1/5⟩]
      [⟨"l1", Beam.LoadType.POINT, 5, 1/10, none, none⟩] (1/10)).nodes.length := by
    show 0 < (Beam.finalNodes _ _ _ _).length
    rw [Beam.finalNodes, List.length_append]
    simp
  exact ⟨hok, hlen,
    (C10_moment_snap ⟨1/5, 1, 1⟩
      [⟨"s1", Beam.SupportType.PINNED, 0⟩, ⟨"s2", Beam.SupportType.ROLLER, 1/5⟩]
      [⟨"l1", Beam.LoadType.POINT, 5, 1/10, none, none⟩] (1/10) _ hok 0 hlen).2.2.1⟩

/-- **C6 counterexample.** Two failures of the claim as stated.  (i) For
one PINNED plus one ROLLER support and no hinges the code returns
determinacy `-1`, not the claimed `0` (`reactionCount = 2` there, and
`2 - 3 - 0 = -1`; likewise FIXED + ROLLER gives `0`, not `1`).  (ii) With
two HINGE supports at the same position the code subtracts the number of
distinct hinge nodes (1), not the number of HINGE supports (2): the claim
would give `3 - 3 - 2 = -2` but the code returns `-1`. -/
theorem C6_determinacy_counterexample :
    (Beam.analyzeBeam ⟨1/5, 1, 1⟩
        [⟨"s1", Beam.SupportType.PINNED, 0⟩, ⟨"s2", Beam.SupportType.ROLLER, 1/5⟩] [] 0
      = Except.ok (Beam.analyzeBeamCore ⟨1/5, 1, 1⟩
        [⟨"s1", Beam.SupportType.PINNED, 0⟩, ⟨"s2", Beam.SupportType.ROLLER, 1/5⟩] [] 0)) ∧
    Beam.reactionCountOf
      [⟨"s1", Beam.SupportType.PINNED, 0⟩, ⟨"s2", Beam.SupportType.ROLLER, 1/5⟩] = 2 ∧
    (Beam.analyzeBeamCore ⟨1/5, 1, 1⟩
      [⟨"s1", Beam.SupportType.PINNED, 0⟩, ⟨"s2", Beam.SupportType.ROLLER, 1/5⟩] [] 0).determinacy
      = -1 ∧
    (-1 : ℤ) ≠ 0 ∧
    (Beam.analyzeBeam ⟨1/5, 1, 1⟩
        [⟨"f", Beam.SupportType.FIXED, 0⟩, ⟨"r", Beam.SupportType.ROLLER, 1/5⟩,
         ⟨"h1", Beam.SupportType.HINGE, 1/10⟩, ⟨"h2", Beam.SupportType.HINGE, 1/10⟩] [] (1/10)
      = Except.ok (Beam.analyzeBeamCore ⟨1/5, 1, 1⟩
        [⟨"f", Beam.SupportType.FIXED, 0⟩, ⟨"r", Beam.SupportType.ROLLER, 1/5⟩,
         ⟨"h1", Beam.SupportType.HINGE, 1/10⟩, ⟨"h2", Beam.SupportType.HINGE, 1/10⟩] [] (1/10))) ∧
    Beam.reactionCountOf
      [⟨"f", Beam.SupportType.FIXED, 0⟩, ⟨"r", Beam.SupportType.ROLLER, 1/5⟩,
       ⟨"h1", Beam.SupportType.HINGE, 1/10⟩, ⟨"h2", Beam.SupportType.HINGE, 1/10⟩] = 3 ∧
    (([⟨"f", Beam.SupportType.FIXED, 0⟩, ⟨"r", Beam.SupportType.ROLLER, 1/5⟩,
       ⟨"h1", Beam.SupportType.HINGE, 1/10⟩, ⟨"h2", Beam.SupportType.HINGE, 1/10⟩]
        : List Beam.Support).filter
      (fun s => decide (s.type = Beam.SupportType.HINGE))).length = 2 ∧
    (Beam.analyzeBeamCore ⟨1/5, 1, 1⟩
      [⟨"f", Beam.SupportType.FIXED, 0⟩, ⟨"r", Beam.SupportType.ROLLER, 1/5⟩,
       ⟨"h1", Beam.SupportType.HINGE, 1/10⟩, ⟨"h2", Beam.SupportType.HINGE, 1/10⟩] [] (1/10)).determinacy
      = -1 ∧
    (-1 : ℤ) ≠ (3 : ℤ) - 3 - 2 := by
  have hg : ¬((1/5 : ℚ) ≤ 0 ∨ Beam.EIOf ⟨1/5, 1, 1⟩ ≤ 0) := by
    push_neg
    exact ⟨by norm_num, by norm_num [Beam.EIOf]⟩
  refine ⟨by rw [Beam.analyzeBeam, if_neg hg], ?_, ?_, by norm_num,
    by rw [Beam.analyzeBeam, if_neg hg], ?_, ?_, ?_, by norm_num⟩
  · simp [Beam.reactionCountOf]
  · show Beam.determinacyOf _ _ = -1
    simp [Beam.determinacyOf, Beam.reactionCountOf, Beam.hingeNodesOf]
  · simp [Beam.reactionCountOf]
  · simp
  · show Beam.determinacyOf _ _ = -1
    simp [Beam.determinacyOf, Beam.reactionCountOf, Beam.hingeNodesOf,
      Finset.insert_idem]

/-- **C6 (amended).** In every result of `analyzeBeam`:
`determinacy = reactionCount - 3 - h`, where `reactionCount` counts 2 per
FIXED, 1 per PINNED/ROLLER, 0 per HINGE, and `h` is the number of
*distinct mesh nodes hosting a HINGE support* (duplicate hinge positions
collapse); and `isStable = (reactionCount ≥ 3)`.  In particular one PINNED
plus one ROLLER with no hinges gives `reactionCount = 2` and determinacy
`-1`, and one FIXED plus one ROLLER gives `reactionCount = 3` and
determinacy `0`. -/
theorem C6_determinacy (cfg : Beam.BeamConfig) (supports : List Beam.Support)
    (loads : List Beam.Load) (probeX : ℚ) (res : Beam.AnalysisResults)
    (hres : Beam.analyzeBeam cfg supports loads probeX = Except.ok res) :
    (res.determinacy = (Beam.reactionCountOf supports : ℤ) - 3
      - ((Beam.hingeNodesOf (Beam.finalNodes cfg supports loads probeX) supports).card : ℤ)) ∧
    res.isStable = decide (3 ≤ Beam.reactionCountOf supports) ∧
    (∀ (nodes : List ℚ) (a b : Beam.Support),
      a.type = Beam.SupportType.PINNED → b.type = Beam.SupportType.ROLLER →
      Beam.reactionCountOf [a, b] = 2 ∧ Beam.determinacyOf nodes [a, b] = -1) ∧
    (∀ (nodes : List ℚ) (a b : Beam.Support),
      a.type = Beam.SupportType.FIXED → b.type = Beam.SupportType.ROLLER →
      Beam.reactionCountOf [a, b] = 3 ∧ Beam.determinacyOf nodes [a, b] = 0) := by
  have hinst1 : ∀ (nodes : List ℚ) (a b : Beam.Support),
      a.type = Beam.SupportType.PINNED → b.type = Beam.SupportType.ROLLER →
      Beam.reactionCountOf [a, b] = 2 ∧ Beam.determinacyOf nodes [a, b] = -1 := by
    intro nodes a b ha hb
    constructor
    · simp [Beam.reactionCountOf, ha, hb]
    · simp [Beam.determinacyOf, Beam.reactionCountOf, Beam.hingeNodesOf, ha, hb]
  have hinst2 : ∀ (nodes : List ℚ) (a b : Beam.Support),
      a.type = Beam.SupportType.FIXED → b.type = Beam.SupportType.ROLLER →
      Beam.reactionCountOf [a, b] = 3 ∧ Beam.determinacyOf nodes [a, b] = 0 := by
    intro nodes a b ha hb
    constructor
    · simp [Beam.reactionCountOf, ha, hb]
    · simp [Beam.determinacyOf, Beam.reactionCountOf, Beam.hingeNodesOf, ha, hb]
  by_cases hg : cfg.length ≤ 0 ∨ Beam.EIOf cfg ≤ 0
  · rw [Beam.analyzeBeam, if_pos hg] at hres
    exact absurd hres (by simp)
  · rw [Beam.analyzeBeam, if_neg hg] at hres
    have hcore : Beam.analyzeBeamCore cfg supports loads probeX = res := by
      injection hres
    subst hcore
    exact ⟨rfl, rfl, hinst1, hinst2⟩

/-- Witness for C6 at the simply supported test beam. -/
theorem C6_determinacy_witness :
    (Beam.analyzeBeam ⟨1/5, 1, 1⟩
        [⟨"s1", Beam.SupportType.PINNED, 0⟩, ⟨"s2", Beam.SupportType.ROLLER, 1/5⟩] [] 0
      = Except.ok (Beam.analyzeBeamCore ⟨1/5, 1, 1⟩
        [⟨"s1", Beam.SupportType.PINNED, 0⟩, ⟨"s2", Beam.SupportType.ROLLER, 1/5⟩] [] 0)) ∧
    ((Beam.analyzeBeamCore ⟨1/5, 1, 1⟩
        [⟨"s1", Beam.SupportType.PINNED, 0⟩, ⟨"s2", Beam.SupportType.ROLLER, 1/5⟩] [] 0).determinacy
      = (Beam.reactionCountOf
          [⟨"s1", Beam.SupportType.PINNED, 0⟩, ⟨"s2", Beam.SupportType.ROLLER, 1/5⟩] : ℤ) - 3
        - ((Beam.hingeNodesOf
            (Beam.finalNodes ⟨1/5, 1, 1⟩
              [⟨"s1", Beam.SupportType.PINNED, 0⟩, ⟨"s2", Beam.SupportType.ROLLER, 1/5⟩] [] 0)
            [⟨"s1", Beam.SupportType.PINNED, 0⟩, ⟨"s2", Beam.SupportType.ROLLER, 1/5⟩]).card : ℤ)) := by
  have hg : ¬((1/5 : ℚ) ≤ 0 ∨ Beam.EIOf ⟨1/5, 1, 1⟩ ≤ 0) := by
    push_neg
    exact ⟨by norm_num, by norm_num [Beam.EIOf]⟩
  have hok : Beam.analyzeBeam ⟨1/5, 1, 1⟩
      [⟨"s1", Beam.SupportType.PINNED, 0⟩, ⟨"s2", Beam.SupportType.ROLLER, 1/5⟩] [] 0
      = Except.ok (Beam.analyzeBeamCore ⟨1/5, 1, 1⟩
        [⟨"s1", Beam.SupportType.PINNED, 0⟩, ⟨"s2", Beam.SupportType.ROLLER, 1/5⟩] [] 0) := by
    rw [Beam.analyzeBeam, if_neg hg]
  exact ⟨hok, (C6_determinacy ⟨1/5, 1, 1⟩
    [⟨"s1", Beam.SupportType.PINNED, 0⟩, ⟨"s2", Beam.SupportType.ROLLER, 1/5⟩] [] 0 _ hok).1⟩

namespace Beam

/-- The JS object has an entry for key `k`. -/
def keyMem (al : List (String × List ILDPoint)) (k : String) : Prop :=
  ∃ p ∈ al, p.1 = k

theorem keyMem_objSet_self (al : List (String × List ILDPoint)) (k : String)
    (v : List ILDPoint) : keyMem (objSet al k v) k := by
  unfold objSet
  by_cases h : al.any (fun p => p.1 = k)
  · rw [if_pos h]
    rw [List.any_eq_true] at h
    obtain ⟨p, hp, hpk⟩ := h
    have hpk2 : p.1 = k := by simpa using hpk
    have hmem := List.mem_map_of_mem (fun q => if q.1 = k then (q.1, v) else q) hp
    refine ⟨(p.1, v), ?_, hpk2⟩
    simpa [hpk2] using hmem
  · rw [if_neg h]
    exact ⟨(k, v), List.mem_append_right _ (List.mem_singleton.mpr rfl), rfl⟩

theorem keyMem_objSet_mono (al : List (String × List ILDPoint)) (k k2 : String)
    (v : List ILDPoint) (h : keyMem al k2) : keyMem (objSet al k v) k2 := by
  obtain ⟨p, hp, hpk⟩ := h
  unfold objSet
  by_cases hb : al.any (fun p => p.1 = k)
  · rw [if_pos hb]
    by_cases hpk2 : p.1 = k
    · refine ⟨(p.1, v), ?_, hpk⟩
      have := List.mem_map_of_mem (fun q => if q.1 = k then (q.1, v) else q) hp
      simpa [hpk2] using this
    · refine ⟨p, ?_, hpk⟩
      have := List.mem_map_of_mem (fun q => if q.1 = k then (q.1, v) else q) hp
      simpa [hpk2] using this
  · rw [if_neg hb]
    exact ⟨p, List.mem_append_left _ hp, hpk⟩

theorem keyMem_objPush (al : List (String × List ILDPoint)) (k k2 : String)
    (pt : ILDPoint) (h : keyMem al k2) : keyMem (objPush al k pt) k2 := by
  obtain ⟨p, hp, hpk⟩ := h
  unfold objPush
  by_cases hpk2 : p.1 = k
  · refine ⟨(p.1, p.2 ++ [pt]), ?_, hpk⟩
    have := List.mem_map_of_mem (fun q => if q.1 = k then (q.1, q.2 ++ [pt]) else q) hp
    simpa [hpk2] using this
  · refine ⟨p, ?_, hpk⟩
    have := List.mem_map_of_mem (fun q => if q.1 = k then (q.1, q.2 ++ [pt]) else q) hp
    simpa [hpk2] using this

theorem find?_objPush (al : List (String × List ILDPoint)) (k k2 : String)
    (pt : ILDPoint) :
    (objPush al k pt).find? (fun p => p.1 = k2)
      = (al.find? (fun p => p.1 = k2)).map
          (fun p => if p.1 = k then (p.1, p.2 ++ [pt]) else p) := by
  unfold objPush
  rw [List.find?_map]
  have hpred : ((fun p : String × List ILDPoint => decide (p.1 = k2))
        ∘ (fun q : String × List ILDPoint => if q.1 = k then (q.1, q.2 ++ [pt]) else q))
      = (fun p : String × List ILDPoint => decide (p.1 = k2)) := by
    funext p
    by_cases hpk : p.1 = k <;> simp [hpk]
  rw [hpred]

theorem objGet_objPush_self (al : List (String × List ILDPoint)) (k : String)
    (pt : ILDPoint) (h : keyMem al k) :
    objGet (objPush al k pt) k = objGet al k ++ [pt] := by
  obtain ⟨p0, hp0, hp0k⟩ := h
  have hsome : (al.find? (fun p => p.1 = k)).isSome := by
    rw [List.find?_isSome]
    exact ⟨p0, hp0, by simp [hp0k]⟩
  match hfind : al.find? (fun p => p.1 = k) with
  | none => rw [hfind] at hsome; simp at hsome
  | some q =>
    have hqk : q.1 = k := by
      have := List.find?_some hfind
      simpa using this
    unfold objGet
    rw [find?_objPush, hfind]
    simp [hqk]

theorem objGet_objPush_other (al : List (String × List ILDPoint)) (k k2 : String)
    (pt : ILDPoint) (h : k2 ≠ k) :
    objGet (objPush al k pt) k2 = objGet al k2 := by
  unfold objGet
  rw [find?_objPush]
  match hfind : al.find? (fun p => p.1 = k2) with
  | none =>
    rw [hfind]
    rfl
  | some q =>
    have hqk : q.1 = k2 := by
      have := List.find?_some hfind
      simpa using this
    have hqnot : ¬(q.1 = k) := by
      rw [hqk]
      exact h
    rw [hfind]
    simp [hqnot]

end Beam

namespace Beam

theorem ildInit_keyMem_aux (k : String) :
    ∀ (l : List Support) (al : List (String × List ILDPoint)),
      (keyMem al k ∨ ∃ s ∈ l, ¬ s.type = SupportType.HINGE ∧ s.id = k) →
      keyMem (l.foldl
        (fun al s => if s.type = SupportType.HINGE then al else objSet al s.id []) al) k := by
  intro l
  induction l with
  | nil =>
    intro al h
    rcases h with h | ⟨s, hs, _⟩
    · exact h
    · exact absurd hs (List.not_mem_nil s)
  | cons a t ih =>
    intro al h
    rw [List.foldl_cons]
    by_cases ha : a.type = SupportType.HINGE
    · rw [if_pos ha]
      apply ih
      rcases h with h | ⟨s, hs, hsk⟩
      · exact Or.inl h
      · rcases List.mem_cons.mp hs with rfl | hst
        · exact absurd ha hsk.1
        · exact Or.inr ⟨s, hst, hsk⟩
    · rw [if_neg ha]
      apply ih
      rcases h with h | ⟨s, hs, hsk⟩
      · exact Or.inl (keyMem_objSet_mono al a.id k [] h)
      · rcases List.mem_cons.mp hs with rfl | hst
        · rw [← hsk.2]
          exact Or.inl (keyMem_objSet_self al s.id [])
        · exact Or.inr ⟨s, hst, hsk⟩

theorem ildInit_keyMem (supports : List Support) (s : Support) (hs : s ∈ supports)
    (hns : ¬ s.type = SupportType.HINGE) : keyMem (ildInit supports) s.id :=
  ildInit_keyMem_aux s.id supports [] (Or.inr ⟨s, hs, hns, rfl⟩)

theorem objSet_vals (al : List (String × List ILDPoint)) (k : String)
    (hval : ∀ p ∈ al, p.2 = ([] : List ILDPoint)) :
    ∀ p ∈ objSet al k [], p.2 = ([] : List ILDPoint) := by
  intro p hp
  unfold objSet at hp
  by_cases hb : al.any (fun p => p.1 = k)
  · rw [if_pos hb] at hp
    rw [List.mem_map] at hp
    obtain ⟨q, hq, hqp⟩ := hp
    by_cases hqk : q.1 = k
    · rw [if_pos hqk] at hqp
      rw [← hqp]
    · rw [if_neg hqk] at hqp
      rw [← hqp]
      exact hval q hq
  · rw [if_neg hb] at hp
    rcases List.mem_append.mp hp with hp1 | hp2
    · exact hval p hp1
    · rw [List.mem_singleton] at hp2
      rw [hp2]

theorem ildInit_vals (supports : List Support) :
    ∀ p ∈ ildInit supports, p.2 = ([] : List ILDPoint) := by
  unfold ildInit
  have key : ∀ (l : List Support) (al : List (String × List ILDPoint)),
      (∀ p ∈ al, p.2 = ([] : List ILDPoint)) →
      ∀ p ∈ l.foldl
        (fun al s => if s.type = SupportType.HINGE then al else objSet al s.id []) al,
        p.2 = ([] : List ILDPoint) := by
    intro l
    induction l with
    | nil => exact fun al h => h
    | cons a t ih =>
      intro al h
      rw [List.foldl_cons]
      by_cases ha : a.type = SupportType.HINGE
      · rw [if_pos ha]
        exact ih al h
      · rw [if_neg ha]
        exact ih _ (objSet_vals al a.id h)
  exact key supports [] (by simp)

theorem objGet_ildInit (supports : List Support) (k : String) :
    objGet (ildInit supports) k = [] := by
  unfold objGet
  match hfind : (ildInit supports).find? (fun p => p.1 = k) with
  | none =>
    rw [hfind]
    rfl
  | some q =>
    rw [hfind]
    have hq : q ∈ ildInit supports := List.mem_of_find?_eq_some hfind
    have := ildInit_vals supports q hq
    simpa using this

end Beam

namespace Beam

theorem station_objGet (x : ℚ) (val : Support → ℚ) :
    ∀ (sups : List Support) (al : List (String × List ILDPoint)) (k : String),
      keyMem al k →
      keyMem (sups.foldl (fun al s => if s.type = SupportType.HINGE then al
          else objPush al s.id ⟨x, val s⟩) al) k ∧
      objGet (sups.foldl (fun al s => if s.type = SupportType.HINGE then al
          else objPush al s.id ⟨x, val s⟩) al) k
        = objGet al k ++ (sups.filter
            (fun s => decide (¬ s.type = SupportType.HINGE ∧ s.id = k))).map
            (fun s => (⟨x, val s⟩ : ILDPoint)) := by
  intro sups
  induction sups with
  | nil =>
    intro al k h
    exact ⟨h, by simp⟩
  | cons a t ih =>
    intro al k h
    rw [List.foldl_cons]
    by_cases ha : a.type = SupportType.HINGE
    · rw [if_pos ha]
      obtain ⟨ih1, ih2⟩ := ih al k h
      refine ⟨ih1, ?_⟩
      rw [ih2]
      congr 2
      rw [List.filter_cons]
      have : ¬(¬ a.type = SupportType.HINGE ∧ a.id = k) := fun hc => hc.1 ha
      simp [this]
    · rw [if_neg ha]
      have hkm2 : keyMem (objPush al a.id ⟨x, val a⟩) k := keyMem_objPush al a.id k _ h
      obtain ⟨ih1, ih2⟩ := ih (objPush al a.id ⟨x, val a⟩) k hkm2
      refine ⟨ih1, ?_⟩
      rw [ih2]
      by_cases hak : a.id = k
      · have hOG : objGet (objPush al a.id ⟨x, val a⟩) k
            = objGet al k ++ [⟨x, val a⟩] := by
          rw [← hak] at h ⊢
          exact objGet_objPush_self al a.id _ h
        rw [hOG]
        rw [List.filter_cons]
        have hcond : (¬ a.type = SupportType.HINGE ∧ a.id = k) := ⟨ha, hak⟩
        rw [if_pos (by simpa using hcond)]
        rw [List.map_cons, List.append_assoc]
        rfl
      · have hOG : objGet (objPush al a.id ⟨x, val a⟩) k = objGet al k :=
          objGet_objPush_other al a.id k _ (fun hc => hak hc.symm)
        rw [hOG]
        congr 2
        rw [List.filter_cons]
        have : ¬(¬ a.type = SupportType.HINGE ∧ a.id = k) := fun hc => hak hc.2
        simp [this]

end Beam

namespace Beam

theorem ildFold_spec (cfg : BeamConfig) (supports : List Support)
    (loads : List Load) (probeX : ℚ) :
    ∀ m : ℕ,
      ((List.range m).foldl (ildStation cfg supports loads probeX)
          (ildInit supports, [], [])).2.1
        = (List.range m).map (fun i =>
            (⟨ildX cfg i, (ildProbeForces cfg supports loads probeX i).shear⟩ : ILDPoint)) ∧
      ((List.range m).foldl (ildStation cfg supports loads probeX)
          (ildInit supports, [], [])).2.2
        = (List.range m).map (fun i =>
            (⟨ildX cfg i, (ildProbeForces cfg supports loads probeX i).moment⟩ : ILDPoint)) ∧
      ∀ k, keyMem (ildInit supports) k →
        keyMem ((List.range m).foldl (ildStation cfg supports loads probeX)
          (ildInit supports, [], [])).1 k ∧
        objGet ((List.range m).foldl (ildStation cfg supports loads probeX)
          (ildInit supports, [], [])).1 k
          = (List.range m).flatMap (fun i =>
              (supports.filter
                (fun s => decide (¬ s.type = SupportType.HINGE ∧ s.id = k))).map
                (fun s =>
                  (⟨ildX cfg i,
                    ildReactionValue cfg supports loads probeX s i⟩ : ILDPoint))) := by
  intro m
  induction m with
  | zero =>
    refine ⟨rfl, rfl, ?_⟩
    intro k hk
    exact ⟨hk, by simpa using objGet_ildInit supports k⟩
  | succ m ih =>
    obtain ⟨ih1, ih2, ih3⟩ := ih
    have hstep : (List.range (m + 1)).foldl (ildStation cfg supports loads probeX)
          (ildInit supports, [], [])
        = ildStation cfg supports loads probeX
            ((List.range m).foldl (ildStation cfg supports loads probeX)
              (ildInit supports, [], [])) m := by
      rw [List.range_succ, List.foldl_append, List.foldl_cons, List.foldl_nil]
    rw [hstep]
    set st := (List.range m).foldl (ildStation cfg supports loads probeX)
      (ildInit supports, [], []) with hstdef
    refine ⟨?_, ?_, ?_⟩
    · show st.2.1 ++ _ = _
      rw [ih1, List.range_succ, List.map_append]
      rfl
    · show st.2.2 ++ _ = _
      rw [ih2, List.range_succ, List.map_append]
      rfl
    · intro k hk
      obtain ⟨ihk, ihg⟩ := ih3 k hk
      have hstat := station_objGet (ildX cfg m)
        (fun s => ildReactionValue cfg supports loads probeX s m) supports st.1 k ihk
      obtain ⟨h1, h2⟩ := hstat
      refine ⟨h1, ?_⟩
      show objGet (supports.foldl _ st.1) k = _
      rw [h2, ihg, List.range_succ, List.flatMap_append]
      simp
end Beam

namespace Beam

theorem filter_id_singleton (l : List Support) (s : Support) (hs : s ∈ l)
    (hn : (l.map Support.id).Nodup) :
    l.filter (fun t => decide (t.id = s.id)) = [s] := by
  induction l with
  | nil => exact absurd hs (List.not_mem_nil s)
  | cons a t ih =>
    rw [List.map_cons, List.nodup_cons] at hn
    rw [List.filter_cons]
    by_cases hai : a.id = s.id
    · rw [if_pos (by simpa using hai)]
      have hsa : s = a := by
        rcases List.mem_cons.mp hs with rfl | hst
        · rfl
        · exact absurd (hai ▸ List.mem_map_of_mem Support.id hst) hn.1
      subst hsa
      have hft : t.filter (fun t2 => decide (t2.id = s.id)) = [] := by
        rw [List.filter_eq_nil_iff]
        intro b hb
        simp only [decide_eq_true_eq]
        intro hbid
        exact hn.1 (hbid ▸ List.mem_map_of_mem Support.id hb)
      rw [hft]
    · rw [if_neg (by simpa using hai)]
      apply ih
      · rcases List.mem_cons.mp hs with rfl | hst
        · exact absurd rfl hai
        · exact hst
      · exact hn.2

theorem combined_filter (supports : List Support) (k : String) :
    supports.filter (fun s => decide (¬ s.type = SupportType.HINGE ∧ s.id = k))
      = (supports.filter (fun s => decide (¬ s.type = SupportType.HINGE))).filter
          (fun s => decide (s.id = k)) := by
  rw [List.filter_filter]
  apply List.filter_congr
  intro a _
  rw [Bool.decide_and, Bool.and_comm]

end Beam

namespace Beam

/-- Two non-HINGE supports sharing the id `"a"` (plus a FIXED support to
make the structure stable), for the influence-line counterexample. -/
def dupIdSupports : List Support :=
  [⟨"a", SupportType.PINNED, 0⟩, ⟨"a", SupportType.ROLLER, 1⟩,
   ⟨"b", SupportType.FIXED, 0⟩]

end Beam

set_option maxRecDepth 4000 in
/-- **C7 counterexample.** `ildReactions` is keyed by support id, so when
two non-HINGE supports share an id their ordinates land in one series:
with the supports `PINNED "a"`, `ROLLER "a"`, `FIXED "b"` the structure is
stable, yet the series stored for id `"a"` receives two points per station
and ends with 62 points, not the 31 the claim states for every non-HINGE
support. -/
theorem C7_ild_counterexample :
    Beam.analyzeBeam ⟨1, 1, 1⟩ Beam.dupIdSupports [] 0
      = Except.ok (Beam.analyzeBeamCore ⟨1, 1, 1⟩ Beam.dupIdSupports [] 0) ∧
    (Beam.analyzeBeamCore ⟨1, 1, 1⟩ Beam.dupIdSupports [] 0).isStable = true ∧
    (Beam.objGet
      (Beam.analyzeBeamCore ⟨1, 1, 1⟩ Beam.dupIdSupports [] 0).ildReactions "a").length
      = 62 ∧
    (62 : ℕ) ≠ 31 := by
  have hg : ¬((1 : ℚ) ≤ 0 ∨ Beam.EIOf ⟨1, 1, 1⟩ ≤ 0) := by
    push_neg
    exact ⟨by norm_num, by norm_num [Beam.EIOf]⟩
  have hok : Beam.analyzeBeam ⟨1, 1, 1⟩ Beam.dupIdSupports [] 0
      = Except.ok (Beam.analyzeBeamCore ⟨1, 1, 1⟩ Beam.dupIdSupports [] 0) := by
    rw [Beam.analyzeBeam, if_neg hg]
  have hstable : Beam.isStableOf Beam.dupIdSupports = true := by
    simp [Beam.isStableOf, Beam.reactionCountOf, Beam.dupIdSupports]
  have hkm : Beam.keyMem (Beam.ildInit Beam.dupIdSupports) "a" :=
    Beam.ildInit_keyMem Beam.dupIdSupports ⟨"a", Beam.SupportType.PINNED, 0⟩
      (by simp [Beam.dupIdSupports]) (by simp)
  obtain ⟨_, _, h3⟩ := Beam.ildFold_spec ⟨1, 1, 1⟩ Beam.dupIdSupports [] 0 31
  obtain ⟨_, hobj⟩ := h3 "a" hkm
  have hild : (Beam.analyzeBeamCore ⟨1, 1, 1⟩ Beam.dupIdSupports [] 0).ildReactions
      = ((List.range 31).foldl (Beam.ildStation ⟨1, 1, 1⟩ Beam.dupIdSupports [] 0)
          (Beam.ildInit Beam.dupIdSupports, [], [])).1 := by
    show (Beam.ildSweep ⟨1, 1, 1⟩ Beam.dupIdSupports [] 0).1 = _
    rw [Beam.ildSweep, if_pos hstable]
  have hfilter : Beam.dupIdSupports.filter
      (fun s => decide (¬ s.type = Beam.SupportType.HINGE ∧ s.id = "a"))
      = [⟨"a", Beam.SupportType.PINNED, 0⟩, ⟨"a", Beam.SupportType.ROLLER, 1⟩] := by
    simp [Beam.dupIdSupports]
  refine ⟨hok, hstable, ?_, by norm_num⟩
  rw [hild, hobj, List.length_flatMap]
  simp only [hfilter, List.length_map, List.length_cons, List.length_nil]
  decide

/-- **C7 (amended).** Provided the non-HINGE supports have pairwise
distinct ids: influence lines are generated iff the structure is stable.
When stable, `ildShearAtProbe` and `ildMomentAtProbe` are exactly the 31
stations `x = i·L/30`, `i = 0, …, 30`, in strictly increasing order of
`x`, with the probe ordinate evaluated from the right side when
`x ≤ probeX` and from the left side when `x > probeX` (this is the side
argument baked into `ildProbeForces`), and every non-HINGE support's
reaction series likewise holds exactly the 31 station ordinates.  When
unstable, all three series are empty, though every non-HINGE support still
owns a (empty) `ildReactions` entry. -/
theorem C7_ild (cfg : Beam.BeamConfig) (supports : List Beam.Support)
    (loads : List Beam.Load) (probeX : ℚ) (res : Beam.AnalysisResults)
    (hres : Beam.analyzeBeam cfg supports loads probeX = Except.ok res)
    (hids : ((supports.filter
        (fun s => decide (¬ s.type = Beam.SupportType.HINGE))).map
        Beam.Support.id).Nodup) :
    res.isStable = Beam.isStableOf supports ∧
    (res.isStable = false →
      res.ildShearAtProbe = [] ∧ res.ildMomentAtProbe = [] ∧
      ∀ s ∈ supports, ¬ s.type = Beam.SupportType.HINGE →
        Beam.keyMem res.ildReactions s.id ∧
        Beam.objGet res.ildReactions s.id = []) ∧
    (res.isStable = true →
      res.ildShearAtProbe = (List.range 31).map (fun i =>
        (⟨Beam.ildX cfg i,
          (Beam.ildProbeForces cfg supports loads probeX i).shear⟩ : Beam.ILDPoint)) ∧
      res.ildMomentAtProbe = (List.range 31).map (fun i =>
        (⟨Beam.ildX cfg i,
          (Beam.ildProbeForces cfg supports loads probeX i).moment⟩ : Beam.ILDPoint)) ∧
      res.ildShearAtProbe.length = 31 ∧
      res.ildMomentAtProbe.length = 31 ∧
      res.ildShearAtProbe.map Beam.ILDPoint.x = (List.range 31).map (Beam.ildX cfg) ∧
      (∀ s ∈ supports, ¬ s.type = Beam.SupportType.HINGE →
        Beam.objGet res.ildReactions s.id = (List.range 31).map (fun i =>
          (⟨Beam.ildX cfg i,
            Beam.ildReactionValue cfg supports loads probeX s i⟩ : Beam.ILDPoint)) ∧
        (Beam.objGet res.ildReactions s.id).length = 31) ∧
      List.Chain' (· < ·) ((List.range 31).map (Beam.ildX cfg))) := by
  by_cases hg : cfg.length ≤ 0 ∨ Beam.EIOf cfg ≤ 0
  · rw [Beam.analyzeBeam, if_pos hg] at hres
    exact absurd hres (by simp)
  · rw [Beam.analyzeBeam, if_neg hg] at hres
    push_neg at hg
    have hcore : Beam.analyzeBeamCore cfg supports loads probeX = res := by
      injection hres
    subst hcore
    have hstb : (Beam.analyzeBeamCore cfg supports loads probeX).isStable
        = Beam.isStableOf supports := rfl
    refine ⟨hstb, ?_, ?_⟩
    · intro hfalse
      rw [hstb] at hfalse
      have hsweep : Beam.ildSweep cfg supports loads probeX
          = (Beam.ildInit supports, [], []) := by
        rw [Beam.ildSweep, if_neg (by rw [hfalse]; simp)]
      refine ⟨?_, ?_, ?_⟩
      · show (Beam.ildSweep cfg supports loads probeX).2.1 = []
        rw [hsweep]
      · show (Beam.ildSweep cfg supports loads probeX).2.2 = []
        rw [hsweep]
      · intro s hs hns
        have hkm := Beam.ildInit_keyMem supports s hs hns
        constructor
        · show Beam.keyMem (Beam.ildSweep cfg supports loads probeX).1 s.id
          rw [hsweep]
          exact hkm
        · show Beam.objGet (Beam.ildSweep cfg supports loads probeX).1 s.id = []
          rw [hsweep]
          exact Beam.objGet_ildInit supports s.id
    · intro htrue
      rw [hstb] at htrue
      have hsweep : Beam.ildSweep cfg supports loads probeX
          = (List.range 31).foldl (Beam.ildStation cfg supports loads probeX)
            (Beam.ildInit supports, [], []) := by
        rw [Beam.ildSweep, if_pos htrue]
      obtain ⟨h1, h2, h3⟩ := Beam.ildFold_spec cfg supports loads probeX 31
      have hshear : (Beam.analyzeBeamCore cfg supports loads probeX).ildShearAtProbe
          = (List.range 31).map (fun i =>
            (⟨Beam.ildX cfg i,
              (Beam.ildProbeForces cfg supports loads probeX i).shear⟩ : Beam.ILDPoint)) := by
        show (Beam.ildSweep cfg supports loads probeX).2.1 = _
        rw [hsweep]
        exact h1
      have hmom : (Beam.analyzeBeamCore cfg supports loads probeX).ildMomentAtProbe
          = (List.range 31).map (fun i =>
            (⟨Beam.ildX cfg i,
              (Beam.ildProbeForces cfg supports loads probeX i).moment⟩ : Beam.ILDPoint)) := by
        show (Beam.ildSweep cfg supports loads probeX).2.2 = _
        rw [hsweep]
        exact h2
      have hreact : ∀ s ∈ supports, ¬ s.type = Beam.SupportType.HINGE →
          Beam.objGet (Beam.analyzeBeamCore cfg supports loads probeX).ildReactions s.id
            = (List.range 31).map (fun i =>
              (⟨Beam.ildX cfg i,
                Beam.ildReactionValue cfg supports loads probeX s i⟩ : Beam.ILDPoint)) := by
        intro s hs hns
        have hkm := Beam.ildInit_keyMem supports s hs hns
        obtain ⟨_, hobj⟩ := h3 s.id hkm
        have hildr : (Beam.analyzeBeamCore cfg supports loads probeX).ildReactions
            = ((List.range 31).foldl (Beam.ildStation cfg supports loads probeX)
              (Beam.ildInit supports, [], [])).1 := by
          show (Beam.ildSweep cfg supports loads probeX).1 = _
          rw [hsweep]
        rw [hildr, hobj]
        have hsingle : supports.filter
            (fun t => decide (¬ t.type = Beam.SupportType.HINGE ∧ t.id = s.id)) = [s] := by
          rw [Beam.combined_filter]
          apply Beam.filter_id_singleton _ s _ hids
          rw [List.mem_filter]
          exact ⟨hs, by simpa using hns⟩
        simp only [hsingle, List.map_cons, List.map_nil]
        have hfm : ∀ (l : List ℕ) (g : ℕ → Beam.ILDPoint),
            (l.flatMap fun i => [g i]) = l.map g := by
          intro l g
          induction l with
          | nil => rfl
          | cons a t ih => simp only [List.flatMap_cons, ih, List.map_cons]; rfl
        exact hfm (List.range 31) _
      have hLpos : 0 < cfg.length := hg.1
      have hchain : List.Chain' (· < ·) ((List.range 31).map (Beam.ildX cfg)) := by
        rw [List.chain'_map]
        rw [show (31 : ℕ) = 30 + 1 from rfl, List.chain'_range_succ]
        intro i hi
        unfold Beam.ildX
        have hdiv : (i : ℚ) / 30 < ((i + 1 : ℕ) : ℚ) / 30 := by
          have hc : ((i : ℚ)) < ((i + 1 : ℕ) : ℚ) := by push_cast; linarith
          linarith
        exact mul_lt_mul_of_pos_right hdiv hLpos
      refine ⟨hshear, hmom, ?_, ?_, ?_, ?_, hchain⟩
      · rw [hshear, List.length_map, List.length_range]
      · rw [hmom, List.length_map, List.length_range]
      · rw [hshear, List.map_map]
        rfl
      · intro s hs hns
        refine ⟨hreact s hs hns, ?_⟩
        rw [hreact s hs hns, List.length_map, List.length_range]

/-- Witness for C7: stable FIXED + ROLLER beam with distinct support ids;
the probe shear influence line has the full 31 stations. -/
theorem C7_ild_witness :
    (Beam.analyzeBeam ⟨1, 1, 1⟩
        [⟨"f", Beam.SupportType.FIXED, 0⟩, ⟨"r", Beam.SupportType.ROLLER, 1⟩] [] 0
      = Except.ok (Beam.analyzeBeamCore ⟨1, 1, 1⟩
        [⟨"f", Beam.SupportType.FIXED, 0⟩, ⟨"r", Beam.SupportType.ROLLER, 1⟩] [] 0)) ∧
    ((([⟨"f", Beam.SupportType.FIXED, 0⟩, ⟨"r", Beam.SupportType.ROLLER, 1⟩]
        : List Beam.Support).filter
        (fun s => decide (¬ s.type = Beam.SupportType.HINGE))).map
        Beam.Support.id).Nodup ∧
    (Beam.analyzeBeamCore ⟨1, 1, 1⟩
      [⟨"f", Beam.SupportType.FIXED, 0⟩, ⟨"r", Beam.SupportType.ROLLER, 1⟩] [] 0).isStable
      = true ∧
    (Beam.analyzeBeamCore ⟨1, 1, 1⟩
      [⟨"f", Beam.SupportType.FIXED, 0⟩, ⟨"r", Beam.SupportType.ROLLER, 1⟩] [] 0).ildShearAtProbe.length
      = 31 := by
  have hg : ¬((1 : ℚ) ≤ 0 ∨ Beam.EIOf ⟨1, 1, 1⟩ ≤ 0) := by
    push_neg
    exact ⟨by norm_num, by norm_num [Beam.EIOf]⟩
  have hok : Beam.analyzeBeam ⟨1, 1, 1⟩
      [⟨"f", Beam.SupportType.FIXED, 0⟩, ⟨"r", Beam.SupportType.ROLLER, 1⟩] [] 0
      = Except.ok (Beam.analyzeBeamCore ⟨1, 1, 1⟩
        [⟨"f", Beam.SupportType.FIXED, 0⟩, ⟨"r", Beam.SupportType.ROLLER, 1⟩] [] 0) := by
    rw [Beam.analyzeBeam, if_neg hg]
  have hids : ((([⟨"f", Beam.SupportType.FIXED, 0⟩, ⟨"r", Beam.SupportType.ROLLER, 1⟩]
      : List Beam.Support).filter
      (fun s => decide (¬ s.type = Beam.SupportType.HINGE))).map
      Beam.Support.id).Nodup := by
    simp
  have htrue : (Beam.analyzeBeamCore ⟨1, 1, 1⟩
      [⟨"f", Beam.SupportType.FIXED, 0⟩, ⟨"r", Beam.SupportType.ROLLER, 1⟩] [] 0).isStable
      = true := by
    show Beam.isStableOf
      [⟨"f", Beam.SupportType.FIXED, 0⟩, ⟨"r", Beam.SupportType.ROLLER, 1⟩] = true
    simp [Beam.isStableOf, Beam.reactionCountOf]
  have hmain := (C7_ild ⟨1, 1, 1⟩
    [⟨"f", Beam.SupportType.FIXED, 0⟩, ⟨"r", Beam.SupportType.ROLLER, 1⟩] [] 0 _ hok hids).2.2
    htrue
  exact ⟨hok, hids, htrue, hmain.2.2.1⟩
